import Mathlib

/-!
Verification development for the team-forming program (`form_teams.py`).

The Python source is shallowly embedded: participants become a `Person`
structure, the module-level mutable globals `TEAMS` / `UNASSIGNED` become an
explicit `TState` record threaded through the phases, Python floats become
rationals, Python `list.remove` / set removal (which compare via the id-based
`Person.__eq__`) become `pyRemove`, and the reading order of Python sets is
modelled by list order (set iteration order is unspecified in the source;
every theorem below is independent of that order).
-/

/-- Participant record (`load_data.Person`): equality and hashing in the
source are keyed on `id` alone. -/
structure Person where
  id : Nat
  tz : ℚ
  exp : ℤ
  lead_priority : ℤ
deriving DecidableEq, Repr

/-- `TARGET_TEAM_SIZE = 5`. -/
def TARGET_TEAM_SIZE : Nat := 5

/-- `TARGET_TZ_SPAN = 3`. -/
def TARGET_TZ_SPAN : ℚ := 3

/-- `MAX_TZ_SPAN = 4`. -/
def MAX_TZ_SPAN : ℚ := 4

/-- `TARGET_EXP_RADIUS = 0.5`. -/
def TARGET_EXP_RADIUS : ℚ := 1/2

/-- Python `x % m` on reals (sign follows the divisor): `x - m * floor (x/m)`. -/
def pymod (x m : ℚ) : ℚ := x - m * (Rat.floor (x / m) : ℤ)

/-- Python `max` over a nonempty list of rationals (head-seeded left fold). -/
def listMax : List ℚ → ℚ
  | [] => 0
  | x :: xs => xs.foldl max x

/-- `tz_span(*tzs)`: sort the timezones mod 24, take consecutive gaps plus the
wraparound gap `tzs[0] - tzs[-1] + 24`, and return `24 - max(gaps)`. -/
def tz_span (tzs : List ℚ) : ℚ :=
  let s := (tzs.map (fun tz => pymod tz 24)).insertionSort (· ≤ ·)
  let gaps := ((s.zip s.tail).map fun ab => ab.2 - ab.1) ++ [s.headD 0 - s.getLastD 0 + 24]
  24 - listMax gaps

/-- `tz_dist(x, y) = min(abs(x-y), 24-abs(x-y))`. -/
def tz_dist (x y : ℚ) : ℚ := min |x - y| (24 - |x - y|)

/-- `exp_improvement(candidate, team, global_avg)`: the decrease of the squared
deviation of the team's average experience from the global average if the
candidate joined. -/
def exp_improvement (candidate : Person) (team : List Person) (global_avg : ℚ) : ℚ :=
  let team_exp : ℚ := ((team.map Person.exp).sum : ℤ)
  let before := team_exp / (team.length : ℚ) - global_avg
  let after := (team_exp + (candidate.exp : ℚ)) / ((team.length : ℚ) + 1) - global_avg
  before ^ 2 - after ^ 2

/-- `statistics.mean` of a list of numbers. -/
def pymean (l : List ℚ) : ℚ := l.sum / (l.length : ℚ)

/-- Python `list.remove(p)` / `set.remove(p)` under the id-based `__eq__`:
drop the first element whose id matches. -/
def pyRemove (p : Person) (l : List Person) : List Person :=
  l.eraseP (fun q => q.id == p.id)

/-- The comprehension `[q for q in l if q != p]` under the id-based `__eq__`. -/
def filterNe (p : Person) (l : List Person) : List Person :=
  l.filter (fun q => q.id != p.id)

/-- Python `max(iterable, key=...)`: first element with maximal key (later
elements replace the current best only on strictly greater key). -/
def pyMax {α κ : Type} (lt : κ → κ → Bool) (key : α → κ) : List α → Option α
  | [] => none
  | x :: xs => some (xs.foldl (fun cur y => if lt (key cur) (key y) then y else cur) x)

/-- Python `<` on a pair (lexicographic). -/
def qLt2 (a b : ℚ × ℚ) : Bool :=
  decide (a.1 < b.1 ∨ (a.1 = b.1 ∧ a.2 < b.2))

/-- Python `<` on a triple (lexicographic). -/
def qLt3 (a b : ℚ × ℤ × ℤ) : Bool :=
  decide (a.1 < b.1 ∨ (a.1 = b.1 ∧ (a.2.1 < b.2.1 ∨ (a.2.1 = b.2.1 ∧ a.2.2 < b.2.2))))

/-- The mutable globals `TEAMS` and `UNASSIGNED` as an explicit state. -/
structure TState where
  teams : List (List Person)
  unassigned : List Person
deriving DecidableEq, Repr

/-- The two non-recursive scans of `find_swap`: the unassigned-source shortcut
(lines 197-202) and the direct-donation scan over teams large enough not to
require a replacement (lines 204-220). -/
def find_swap_direct (exp_avg : ℚ) (st : TState) (target : List Person)
    (involved : List Nat) (skip_unassigned : Bool) : Option (List (Person × Option Nat)) :=
  let fromUnassigned : Option (List (Person × Option Nat)) :=
    if skip_unassigned then none else
      (st.unassigned.find? fun person =>
        decide (tz_span (target.map Person.tz ++ [person.tz]) ≤ MAX_TZ_SPAN ∧
          |exp_avg - pymean (target.map (fun p => (p.exp : ℚ)) ++ [(person.exp : ℚ)])| ≤
            TARGET_EXP_RADIUS)).map
        (fun person => [(person, (none : Option Nat))])
  fromUnassigned <|>
    (List.range st.teams.length).findSome? (fun from_team_id =>
      let from_team := st.teams.getD from_team_id []
      if from_team_id ∈ involved ∨ from_team.length < TARGET_TEAM_SIZE + 1 then none
      else ((from_team.drop 1).find? fun person =>
        decide (tz_span (target.map Person.tz ++ [person.tz]) ≤ MAX_TZ_SPAN ∧
          tz_span ((filterNe person from_team).map Person.tz) ≤ MAX_TZ_SPAN ∧
          |exp_avg - pymean (target.map (fun p => (p.exp : ℚ)) ++ [(person.exp : ℚ)])| ≤
            TARGET_EXP_RADIUS ∧
          |exp_avg - pymean ((filterNe person from_team).map (fun p => (p.exp : ℚ)))| ≤
            TARGET_EXP_RADIUS)).map
        (fun person => [(person, some from_team_id)]))

/-- `find_swap(target_team, involved_teams, search_depth, skip_unassigned)`.
The two shortcut scans run first; if `search_depth <= 1` the search gives up,
otherwise teams of size at least `TARGET_TEAM_SIZE` are scanned for a donor
whose replacement is sought recursively with `search_depth - 1` (the recursive
call leaves `skip_unassigned` at its default `False`, as in the source). -/
def find_swap (exp_avg : ℚ) (st : TState) :
    Nat → List Person → List Nat → Bool → Option (List (Person × Option Nat))
  | 0, target, involved, skip => find_swap_direct exp_avg st target involved skip
  | 1, target, involved, skip => find_swap_direct exp_avg st target involved skip
  | depth+2, target, involved, skip =>
    (find_swap_direct exp_avg st target involved skip) <|>
    (List.range st.teams.length).findSome? (fun from_team_id =>
      let from_team := st.teams.getD from_team_id []
      if from_team_id ∈ involved ∨ from_team.length < TARGET_TEAM_SIZE then none
      else (from_team.drop 1).findSome? (fun person =>
        if tz_span (target.map Person.tz ++ [person.tz]) ≤ MAX_TZ_SPAN ∧
           |exp_avg - pymean (target.map (fun p => (p.exp : ℚ)) ++ [(person.exp : ℚ)])| ≤
             TARGET_EXP_RADIUS
        then (find_swap exp_avg st (depth+1) (filterNe person from_team)
                (from_team_id :: involved) false).map
          (fun sw => (person, some from_team_id) :: sw)
        else none))

/-- Applying a swap chain (form_teams lines 163-172): append each hop's person
to the running target team and remove them from their source team, the source
becoming the next target; a `None` source removes from `UNASSIGNED` and ends
the chain (in the source a further hop after a `None` source would fault;
`find_swap` never produces one, see `chainok_none_last`). -/
def apply_swap_chain (st : TState) : Nat → List (Person × Option Nat) → TState
  | _, [] => st
  | target_id, (person, none) :: _ =>
      { teams := st.teams.set target_id (st.teams.getD target_id [] ++ [person]),
        unassigned := pyRemove person st.unassigned }
  | target_id, (person, some from_id) :: rest =>
      let teams1 := st.teams.set target_id (st.teams.getD target_id [] ++ [person])
      let teams2 := teams1.set from_id (pyRemove person (teams1.getD from_id []))
      apply_swap_chain { teams := teams2, unassigned := st.unassigned } from_id rest

/-- The repair loop body for one team (lines 152-172): up to
`TARGET_TEAM_SIZE - len(team)` chain searches, stopping at the first failure. -/
def repair_team (exp_avg : ℚ) (st : TState) (team_id : Nat) : Nat → TState
  | 0 => st
  | n+1 =>
    match find_swap exp_avg st 3 (st.teams.getD team_id []) [team_id] true with
    | none => st
    | some chain => repair_team exp_avg (apply_swap_chain st team_id chain) team_id n

/-- Phase 3 (lines 150-172): repair every team that is short of the target. -/
def phase3 (exp_avg : ℚ) (st : TState) : TState :=
  (List.range st.teams.length).foldl
    (fun st' team_id =>
      repair_team exp_avg st' team_id (TARGET_TEAM_SIZE - (st'.teams.getD team_id []).length))
    st

/-- One drafting step of phase 1 (lines 108-121) for the team at index `i`. -/
def draft_step (exp_avg : ℚ) (st : TState) (i : Nat) : TState :=
  let team := st.teams.getD i []
  let nearby := st.unassigned.filter fun p =>
    decide (MAX_TZ_SPAN ≥ tz_span (team.map Person.tz ++ [p.tz]))
  match pyMax qLt2 (fun person =>
      (-(max TARGET_TZ_SPAN (tz_span (team.map Person.tz ++ [person.tz]))),
       exp_improvement person team exp_avg)) nearby with
  | none => st
  | some best =>
      { teams := st.teams.set i (team ++ [best]), unassigned := pyRemove best st.unassigned }

/-- Phase 1 (lines 107-121): `TEAMS*(TARGET_TEAM_SIZE-1)` is the team list
repeated `TARGET_TEAM_SIZE-1` times, i.e. that many round-robin sweeps. -/
def phase1 (exp_avg : ℚ) (st : TState) : TState :=
  (List.range (TARGET_TEAM_SIZE - 1)).foldl
    (fun st' _ => (List.range st'.teams.length).foldl (draft_step exp_avg) st') st

/-- One leftover-placement step of phase 2 (lines 129-143) for `person`. -/
def assign_step (exp_avg : ℚ) (st : TState) (person : Person) : TState :=
  let available := (List.range st.teams.length).filter fun i =>
    let team := st.teams.getD i []
    decide (team.length ≤ TARGET_TEAM_SIZE ∧
      tz_span (team.map Person.tz ++ [person.tz]) ≤ MAX_TZ_SPAN)
  match pyMax qLt2 (fun i =>
      let team := st.teams.getD i []
      (-(max TARGET_TZ_SPAN (tz_span (team.map Person.tz ++ [person.tz]))),
       exp_improvement person (st.teams.getD i []) exp_avg)) available with
  | none => st
  | some i =>
      { teams := st.teams.set i (st.teams.getD i [] ++ [person]),
        unassigned := pyRemove person st.unassigned }

/-- Phase 2 walks a snapshot of `UNASSIGNED` (`UNASSIGNED.copy()`). -/
def phase2_go (exp_avg : ℚ) : TState → List Person → TState
  | st, [] => st
  | st, p :: rest => phase2_go exp_avg (assign_step exp_avg st p) rest

/-- Phase 2 (lines 128-143): assign leftovers, allowing teams to reach
`TARGET_TEAM_SIZE + 1`. -/
def phase2 (exp_avg : ℚ) (st : TState) : TState := phase2_go exp_avg st st.unassigned

/-- The descending `(lead_priority, exp)` order used by the final
leader-reconciliation sort (line 176): `p` may come before `q`. -/
def leadGe (p q : Person) : Prop :=
  q.lead_priority < p.lead_priority ∨
    (q.lead_priority = p.lead_priority ∧ q.exp ≤ p.exp)

instance : DecidableRel leadGe := fun p q => by
  unfold leadGe; infer_instance

instance : IsTotal Person leadGe := ⟨fun p q => by unfold leadGe; omega⟩

instance : IsTrans Person leadGe := ⟨fun a b c hab hbc => by unfold leadGe at *; omega⟩

/-- The final pass over one team (lines 175-179): sort descending by
`(lead_priority, exp)` and replace the team if the best member is not already
the leader (comparison is the id-based `__eq__`). -/
def reconcile_team (team : List Person) : List Person :=
  let new_order := team.insertionSort leadGe
  match new_order, team with
  | q :: _, t :: _ => if q.id = t.id then team else new_order
  | _, _ => team

/-- The final leader-reconciliation pass over all teams. -/
def reconcile (st : TState) : TState :=
  { st with teams := st.teams.map reconcile_team }

/-- The sort key `(p.tz - 12) % 24` for `PEOPLE.sort` (line 81). -/
def tzSortKeyLe (p q : Person) : Prop :=
  pymod (p.tz - 12) 24 ≤ pymod (q.tz - 12) 24

instance : DecidableRel tzSortKeyLe := fun p q => by
  unfold tzSortKeyLe; infer_instance

/-- `PEOPLE.sort(key=lambda p: (p.tz-12)%24)` (stable sort). -/
def sortByTz (people : List Person) : List Person :=
  people.insertionSort tzSortKeyLe

/-- Python slice `l[start::step]`: every `step`-th element from `start`. -/
def every_nth {α : Type} (step : Nat) : List α → List α
  | [] => []
  | x :: xs => x :: every_nth step (xs.drop (step - 1))
termination_by l => l.length
decreasing_by simp [List.length_drop]; omega

/-- The leader-choice key of line 84-93: maximize
`(-max(TARGET_TZ_SPAN/2, tz_dist(pl.tz, target_tz)), lead_priority, exp)`. -/
def leaderKey (target_tz : ℚ) (pl : Person) : ℚ × ℤ × ℤ :=
  (-(max (TARGET_TZ_SPAN / 2) (tz_dist pl.tz target_tz)), pl.lead_priority, pl.exp)

/-- The leader-selection loop (lines 82-95): one `max` pick per anchor, the
pick leaving the candidate pool; `none` models the `ValueError` Python's
`max` raises on an empty pool. -/
def pick_leaders : List Person → List Person → Option (List Person)
  | [], _ => some []
  | anchor :: rest, pool =>
    match pyMax qLt3 (leaderKey anchor.tz) pool with
    | none => none
    | some best => (pick_leaders rest (pyRemove best pool)).map (fun ls => best :: ls)

/-- `EXP_AVG = mean(p.exp for p in PEOPLE)`. -/
def mean_exp (people : List Person) : ℚ :=
  pymean (people.map fun p => (p.exp : ℚ))

/-- The two failure modes of `form_teams`: the deliberate configuration
exception of line 75, and the `ValueError` from `max` over an exhausted
candidate pool. -/
inductive FormErr where
  | notEnoughLeaders
  | emptyPool
deriving DecidableEq, Repr

/-- `form_teams()` (lines 61-182): the full pipeline as a function from the
roster to the final `TEAMS` / `UNASSIGNED` state. -/
def form_teams (people : List Person) : Except FormErr TState :=
  let exp_avg := mean_exp people
  let potential_leaders := people.filter (fun p => 0 < p.lead_priority)
  if (potential_leaders.length + 1) * TARGET_TEAM_SIZE ≤ people.length then
    .error .notEnoughLeaders
  else
    let sorted_people := sortByTz people
    let anchors := every_nth TARGET_TEAM_SIZE (sorted_people.drop (TARGET_TEAM_SIZE / 2))
    match pick_leaders anchors potential_leaders with
    | none => .error .emptyPool
    | some leaders =>
      let st0 : TState := {
        teams := leaders.map (fun l => [l]),
        unassigned := sorted_people.filter (fun p => !(leaders.any (fun l => l.id == p.id))) }
      .ok (reconcile (phase3 exp_avg (phase2 exp_avg (phase1 exp_avg st0))))

/-- The multiset of people held by the state: all team members plus the
unassigned pool. -/
def Mstate (st : TState) : Multiset Person :=
  (st.teams.map Multiset.ofList).sum + Multiset.ofList st.unassigned

/-- A list of people with pairwise distinct ids (the input contract: no
duplicate ids in the roster). -/
def NodupIds (l : List Person) : Prop := (l.map Person.id).Nodup

instance (l : List Person) : Decidable (NodupIds l) := by
  unfold NodupIds; infer_instance

/-- Shape invariant of the chains `find_swap` returns against the state it
searched: each hop's person is a non-leader member of an uninvolved source
team of the required size whose donation keeps the running target within the
span ceiling, and an unassigned-sourced hop ends the chain. -/
inductive ChainOK (st : TState) : List Person → List Nat → List (Person × Option Nat) → Prop
  | fromUnassigned (target : List Person) (involved : List Nat) (person : Person) :
      person ∈ st.unassigned →
      tz_span (target.map Person.tz ++ [person.tz]) ≤ MAX_TZ_SPAN →
      ChainOK st target involved [(person, none)]
  | direct (target : List Person) (involved : List Nat) (person : Person) (from_id : Nat) :
      from_id ∉ involved → from_id < st.teams.length →
      person ∈ (st.teams.getD from_id []).drop 1 →
      TARGET_TEAM_SIZE + 1 ≤ (st.teams.getD from_id []).length →
      tz_span (target.map Person.tz ++ [person.tz]) ≤ MAX_TZ_SPAN →
      tz_span ((filterNe person (st.teams.getD from_id [])).map Person.tz) ≤ MAX_TZ_SPAN →
      ChainOK st target involved [(person, some from_id)]
  | step (target : List Person) (involved : List Nat) (person : Person) (from_id : Nat)
      (rest : List (Person × Option Nat)) :
      from_id ∉ involved → from_id < st.teams.length →
      person ∈ (st.teams.getD from_id []).drop 1 →
      TARGET_TEAM_SIZE ≤ (st.teams.getD from_id []).length →
      tz_span (target.map Person.tz ++ [person.tz]) ≤ MAX_TZ_SPAN →
      rest ≠ [] →
      ChainOK st (filterNe person (st.teams.getD from_id [])) (from_id :: involved) rest →
      ChainOK st target involved ((person, some from_id) :: rest)

/-- Constructor for concrete participants in the test inputs below. -/
def mkPerson (i : Nat) (t : ℚ) (e lp : ℤ) : Person := ⟨i, t, e, lp⟩

/-- A 3-person roster with one leader candidate; the pipeline forms one full
team of all three. -/
def rosterA : List Person := [mkPerson 0 0 3 1, mkPerson 1 0 2 0, mkPerson 2 0 2 0]

/-- The final state `form_teams` produces on `rosterA`. -/
def stA : TState :=
  { teams := [[mkPerson 0 0 3 1, mkPerson 1 0 2 0, mkPerson 2 0 2 0]], unassigned := [] }

/-- A 4-person roster with no leader candidates: the precondition check
passes (`(0+1)*5 <= 4` is false) yet the anchor at index 2 exists and the
candidate pool is empty. -/
def rosterB : List Person :=
  [mkPerson 0 0 1 0, mkPerson 1 1 1 0, mkPerson 2 2 1 0, mkPerson 3 3 1 0]

/-- A 5-person roster with no leader candidates: `(0+1)*5 <= 5` holds, so the
configuration error is raised. -/
def rosterC : List Person :=
  [mkPerson 0 0 1 0, mkPerson 1 1 1 0, mkPerson 2 2 1 0, mkPerson 3 3 1 0, mkPerson 4 4 1 0]

/-- A state whose team 1 has size exactly `TARGET_TEAM_SIZE + 1 = 6`: its
members are eligible direct donors. -/
def donorSt : TState :=
  { teams := [[mkPerson 30 0 2 1],
      [mkPerson 40 0 2 1, mkPerson 31 0 2 0, mkPerson 41 0 2 0, mkPerson 42 0 2 0,
       mkPerson 43 0 2 0, mkPerson 44 0 2 0]],
    unassigned := [] }

/-- A state where the only donor team has size 5, so the direct scan fails and
the recursive step must find the replacement — which it takes from the
unassigned pool. -/
def recSt : TState :=
  { teams := [[mkPerson 10 0 2 1],
      [mkPerson 20 0 2 1, mkPerson 11 0 2 0, mkPerson 21 0 2 0, mkPerson 22 0 2 0,
       mkPerson 23 0 2 0]],
    unassigned := [mkPerson 12 0 2 0] }

theorem pymod_self_of_lt {x : ℚ} (h0 : 0 ≤ x) (h24 : x < 24) : pymod x 24 = x := by
  have h1 : (0:ℤ) ≤ Rat.floor (x / 24) := by
    rw [Rat.le_floor]
    push_cast
    positivity
  have h2 : ¬ ((1:ℤ) ≤ Rat.floor (x / 24)) := by
    rw [Rat.le_floor]
    push_cast
    intro hc
    have hx : x / 24 < 1 := by
      rw [div_lt_one (by norm_num : (0:ℚ) < 24)]
      exact h24
    linarith
  have h3 : Rat.floor (x / 24) = 0 := by omega
  simp [pymod, h3]

theorem tz_span_perm {l l' : List ℚ} (h : l.Perm l') : tz_span l = tz_span l' := by
  have hs : (l.map (fun tz => pymod tz 24)).insertionSort (· ≤ ·) =
      (l'.map (fun tz => pymod tz 24)).insertionSort (· ≤ ·) := by
    exact @List.eq_of_perm_of_sorted ℚ _ ⟨fun _ _ h1 h2 => le_antisymm h1 h2⟩ _ _
      ((List.perm_insertionSort _ _).trans ((h.map _).trans (List.perm_insertionSort _ _).symm))
      (List.sorted_insertionSort _ _) (List.sorted_insertionSort _ _)
  simp only [tz_span, hs]

theorem tz_span_pair_sorted {a b : ℚ} (h0 : 0 ≤ a) (hab : a ≤ b) (hb : b < 24) :
    tz_span [a, b] = min (b - a) (24 - (b - a)) := by
  have hma := pymod_self_of_lt h0 (lt_of_le_of_lt hab hb)
  have hmb := pymod_self_of_lt (le_trans h0 hab) hb
  have hsort : ([a, b].map (fun tz => pymod tz 24)).insertionSort (· ≤ ·) = [a, b] := by
    simp [List.insertionSort, List.orderedInsert, hma, hmb, hab]
  have h1 : tz_span [a, b] = 24 - max (b - a) (a - b + 24) := by
    simp only [tz_span, hsort]
    simp [listMax]
  rw [h1]
  rcases le_total (b - a) (a - b + 24) with h | h
  · rw [max_eq_right h, min_eq_left (by linarith)]
    try ring
  · rw [max_eq_left h, min_eq_right (by linarith)]
    try ring

/-- C9: for two points of the normalized domain `[0, 24)` the general
minimal-arc computation `tz_span` agrees with the two-point fast path
`tz_dist`, and the span of a single point is 0. -/
theorem claim_C9 (a b : ℚ) (ha0 : 0 ≤ a) (ha : a < 24) (hb0 : 0 ≤ b) (hb : b < 24) :
    tz_span [a, b] = tz_dist a b ∧ ∀ x : ℚ, tz_span [x] = 0 := by
  constructor
  · rcases le_total a b with hab | hab
    · rw [tz_span_pair_sorted ha0 hab hb]
      have habs : |a - b| = b - a := by
        rw [abs_sub_comm]
        exact abs_of_nonneg (by linarith)
      rw [tz_dist, habs]
    · rw [tz_span_perm (List.Perm.swap b a [])]
      rw [tz_span_pair_sorted hb0 hab ha]
      have habs : |a - b| = a - b := abs_of_nonneg (by linarith)
      rw [tz_dist, habs]
  · intro x
    have h1 : tz_span [x] = 24 - (pymod x 24 - pymod x 24 + 24) := by
      simp [tz_span, List.insertionSort, List.orderedInsert, listMax]
    rw [h1]
    ring

/-- Witness for C9 at the concrete pair `(1, 20)`. -/
theorem claim_C9_witness : tz_span [(1 : ℚ), 20] = tz_dist 1 20 :=
  (claim_C9 1 20 (by decide) (by decide) (by decide) (by decide)).1

/-- C8: for a non-empty team, `exp_improvement` is positive exactly when the
candidate's addition strictly shrinks the absolute deviation of the team
average from the global average, and zero exactly when the deviations tie. -/
theorem claim_C8 (candidate : Person) (team : List Person) (global_avg : ℚ)
    (hne : team ≠ []) :
    (0 < exp_improvement candidate team global_avg ↔
      |(((team.map Person.exp).sum : ℤ) + (candidate.exp : ℚ)) / ((team.length : ℚ) + 1) -
          global_avg| <
        |(((team.map Person.exp).sum : ℤ) : ℚ) / (team.length : ℚ) - global_avg|) ∧
    (exp_improvement candidate team global_avg = 0 ↔
      |(((team.map Person.exp).sum : ℤ) + (candidate.exp : ℚ)) / ((team.length : ℚ) + 1) -
          global_avg| =
        |(((team.map Person.exp).sum : ℤ) : ℚ) / (team.length : ℚ) - global_avg|) := by
  constructor
  · simp only [exp_improvement]
    rw [sub_pos]
    exact sq_lt_sq
  · simp only [exp_improvement]
    rw [sub_eq_zero, sq_eq_sq_iff_abs_eq_abs, eq_comm]

/-- Witness for C8: adding an experience-2 candidate to a one-member team of
experience 3 with global average 2 strictly improves. -/
theorem claim_C8_witness : 0 < exp_improvement (mkPerson 1 0 2 0) [mkPerson 0 0 3 1] 2 :=
  (claim_C8 (mkPerson 1 0 2 0) [mkPerson 0 0 3 1] 2 (by decide)).1.mpr
    (of_decide_eq_true (by with_unfolding_all rfl))

/-- C5: the fatal configuration error is raised exactly when
`(candidates + 1) * TARGET_TEAM_SIZE <= len(PEOPLE)`; in the embedding the
error branch is taken before any team or assignment state is constructed. -/
theorem claim_C5 (people : List Person) (hN : NodupIds people) :
    form_teams people = Except.error FormErr.notEnoughLeaders ↔
      ((people.filter (fun p => 0 < p.lead_priority)).length + 1) * TARGET_TEAM_SIZE ≤
        people.length := by
  unfold form_teams
  by_cases hc : ((people.filter (fun p => 0 < p.lead_priority)).length + 1) *
      TARGET_TEAM_SIZE ≤ people.length
  · simp [hc]
  · simp only [if_neg hc]
    cases hpl : pick_leaders
        (every_nth TARGET_TEAM_SIZE ((sortByTz people).drop (TARGET_TEAM_SIZE / 2)))
        (people.filter (fun p => 0 < p.lead_priority)) with
    | none => simp [hpl, hc]
    | some ls => simp [hpl, hc]

/-- Witness for C5: a 5-person roster with no leader candidates trips the
configuration error. -/
theorem claim_C5_witness : form_teams rosterC = Except.error FormErr.notEnoughLeaders :=
  (claim_C5 rosterC (by decide)).mpr (by decide)

/-- C6 (code bug): on the 4-person roster with zero leader candidates the
precondition check passes (`(0+1)*5 <= 4` is false), yet leader selection
faults: the pool is exhausted while the anchor at sorted index 2 remains
(`max` over an empty pool raises `ValueError` in the source, modelled as the
`emptyPool` outcome). -/
theorem claim_C6 :
    ¬ (((rosterB.filter (fun p => 0 < p.lead_priority)).length + 1) * TARGET_TEAM_SIZE ≤
        rosterB.length) ∧
      form_teams rosterB = Except.error FormErr.emptyPool := by
  constructor
  · decide
  · with_unfolding_all rfl

/-- Counterexample for C3 as stated: `find_swap`'s direct-donation step
returns a one-hop chain drawn from a team of size exactly 6, i.e.
`TARGET_TEAM_SIZE + 1`, not strictly greater than it. -/
theorem claim_C3_counterexample :
    find_swap 2 donorSt 3 [mkPerson 30 0 2 1] [0] true = some [(mkPerson 31 0 2 0, some 1)] ∧
      ¬ (TARGET_TEAM_SIZE + 1 < (donorSt.teams.getD 1 []).length) := by
  constructor
  · with_unfolding_all rfl
  · decide

/-- Counterexample for C4 as stated: with `skip_unassigned=True` the outermost
scan of the Unassigned set is disabled, yet the returned chain still carries
an unassigned-sourced hop — the recursive call did not skip the shortcut. -/
theorem claim_C4_counterexample :
    ∃ chain, find_swap 2 recSt 3 [mkPerson 10 0 2 1] [0] true = some chain ∧
      ∃ hop ∈ chain, hop.2 = (none : Option Nat) := by
  refine ⟨[(mkPerson 11 0 2 0, some 1), (mkPerson 12 0 2 0, none)], ?_, ?_⟩
  · with_unfolding_all rfl
  · exact ⟨(mkPerson 12 0 2 0, none), by decide, rfl⟩

theorem foldl_best_mem {α κ : Type} (lt : κ → κ → Bool) (key : α → κ) :
    ∀ (xs : List α) (cur : α),
      xs.foldl (fun c y => if lt (key c) (key y) then y else c) cur ∈ cur :: xs := by
  intro xs
  induction xs with
  | nil => intro cur; simp [List.foldl]
  | cons y ys ih =>
    intro cur
    simp only [List.foldl]
    by_cases h : lt (key cur) (key y) = true
    · rw [if_pos h]
      have hm := ih y
      simp only [List.mem_cons] at hm ⊢
      tauto
    · rw [if_neg h]
      have hm := ih cur
      simp only [List.mem_cons] at hm ⊢
      tauto

theorem pyMax_mem {α κ : Type} {lt : κ → κ → Bool} {key : α → κ} {l : List α} {x : α}
    (h : pyMax lt key l = some x) : x ∈ l := by
  cases l with
  | nil => simp [pyMax] at h
  | cons a as =>
    simp only [pyMax, Option.some.injEq] at h
    have hm := foldl_best_mem lt key as a
    rw [h] at hm
    exact hm

theorem scan_direct_sound {exp_avg : ℚ} {st : TState} {target : List Person}
    {involved : List Nat} {chain : List (Person × Option Nat)}
    (h : (List.range st.teams.length).findSome? (fun from_team_id =>
      let from_team := st.teams.getD from_team_id []
      if from_team_id ∈ involved ∨ from_team.length < TARGET_TEAM_SIZE + 1 then none
      else ((from_team.drop 1).find? fun person =>
        decide (tz_span (target.map Person.tz ++ [person.tz]) ≤ MAX_TZ_SPAN ∧
          tz_span ((filterNe person from_team).map Person.tz) ≤ MAX_TZ_SPAN ∧
          |exp_avg - pymean (target.map (fun p => (p.exp : ℚ)) ++ [(person.exp : ℚ)])| ≤
            TARGET_EXP_RADIUS ∧
          |exp_avg - pymean ((filterNe person from_team).map (fun p => (p.exp : ℚ)))| ≤
            TARGET_EXP_RADIUS)).map
        (fun person => [(person, some from_team_id)])) = some chain) :
    ChainOK st target involved chain := by
  obtain ⟨fid, hmem, hfid⟩ := List.exists_of_findSome?_eq_some h
  dsimp only at hfid
  split at hfid
  · exact absurd hfid (by simp)
  · rw [Option.map_eq_some'] at hfid
    obtain ⟨person, hfind, hchain⟩ := hfid
    subst hchain
    have hcond := List.find?_some hfind
    simp only [decide_eq_true_eq] at hcond
    rename_i hguard
    push_neg at hguard
    exact ChainOK.direct target involved person fid hguard.1 (List.mem_range.mp hmem)
      (List.mem_of_find?_eq_some hfind) hguard.2 hcond.1 hcond.2.1

theorem find_swap_direct_sound {exp_avg : ℚ} {st : TState} {target : List Person}
    {involved : List Nat} {skip : Bool} {chain : List (Person × Option Nat)}
    (h : find_swap_direct exp_avg st target involved skip = some chain) :
    ChainOK st target involved chain := by
  simp only [find_swap_direct] at h
  cases skip with
  | true =>
    rw [if_pos rfl] at h
    rw [Option.none_orElse] at h
    exact scan_direct_sound h
  | false =>
    rw [if_neg (by simp)] at h
    cases hf : st.unassigned.find? (fun person =>
        decide (tz_span (target.map Person.tz ++ [person.tz]) ≤ MAX_TZ_SPAN ∧
          |exp_avg - pymean (target.map (fun p => (p.exp : ℚ)) ++ [(person.exp : ℚ)])| ≤
            TARGET_EXP_RADIUS)) with
    | none =>
      rw [hf] at h
      simp only [Option.map_none', Option.none_orElse] at h
      exact scan_direct_sound h
    | some person =>
      rw [hf] at h
      simp only [Option.map_some', Option.some_orElse, Option.some.injEq] at h
      subst h
      have hcond := List.find?_some hf
      simp only [decide_eq_true_eq] at hcond
      exact ChainOK.fromUnassigned target involved person
        (List.mem_of_find?_eq_some hf) hcond.1

theorem chainok_ne_nil {st : TState} {target : List Person} {involved : List Nat}
    {chain : List (Person × Option Nat)} (h : ChainOK st target involved chain) :
    chain ≠ [] := by
  cases h <;> simp

theorem find_swap_sound (exp_avg : ℚ) (st : TState) :
    ∀ (depth : Nat) (target : List Person) (involved : List Nat) (skip : Bool)
      (chain : List (Person × Option Nat)),
      find_swap exp_avg st depth target involved skip = some chain →
      ChainOK st target involved chain := by
  intro depth
  induction depth with
  | zero =>
    intro target involved skip chain h
    rw [find_swap] at h
    exact find_swap_direct_sound h
  | succ n ih =>
    cases n with
    | zero =>
      intro target involved skip chain h
      rw [find_swap] at h
      exact find_swap_direct_sound h
    | succ m =>
      intro target involved skip chain h
      rw [find_swap] at h
      cases hd : find_swap_direct exp_avg st target involved skip with
      | some c =>
        rw [hd, Option.some_orElse] at h
        cases h
        exact find_swap_direct_sound hd
      | none =>
        rw [hd, Option.none_orElse] at h
        obtain ⟨fid, hmem, hfid⟩ := List.exists_of_findSome?_eq_some h
        dsimp only at hfid
        split at hfid
        · exact absurd hfid (by simp)
        · obtain ⟨person, hpmem, hper⟩ := List.exists_of_findSome?_eq_some hfid
          split at hper
          · rw [Option.map_eq_some'] at hper
            obtain ⟨sw, hsw, hchain⟩ := hper
            subst hchain
            rename_i hguard hcond
            push_neg at hguard
            exact ChainOK.step target involved person fid sw hguard.1
              (List.mem_range.mp hmem) hpmem hguard.2 hcond.1
              (chainok_ne_nil (ih _ _ _ _ hsw)) (ih _ _ _ _ hsw)
          · exact absurd hper (by simp)

theorem chainok_none_last {st : TState} {target : List Person} {involved : List Nat}
    {chain : List (Person × Option Nat)} (h : ChainOK st target involved chain) :
    chain.dropLast.all (fun hop => hop.2.isSome) = true := by
  induction h with
  | fromUnassigned => simp
  | direct => simp
  | step target involved person fid rest h1 h2 h3 h4 h5 hne hrest ih =>
    cases rest with
    | nil => exact absurd rfl hne
    | cons r rs =>
      simp only [List.dropLast, List.all_cons, Bool.and_eq_true]
      exact ⟨rfl, ih⟩

/-- C3 amended: a single-hop chain returned by `find_swap` with a team source
comes from the direct-donation scan: the donor team is not in
`involvedTeamIds`, has size at least `TARGET_TEAM_SIZE + 1` (the code's guard
`len(from_team) < TARGET_TEAM_SIZE + 1: continue`), and the donor is drawn
from `from_team[1:]`, never the leader at index 0. -/
theorem claim_C3 (exp_avg : ℚ) (st : TState) (depth : Nat) (target : List Person)
    (involved : List Nat) (skip : Bool) (person : Person) (fid : Nat)
    (h : find_swap exp_avg st depth target involved skip = some [(person, some fid)]) :
    fid ∉ involved ∧ TARGET_TEAM_SIZE + 1 ≤ (st.teams.getD fid []).length ∧
      person ∈ (st.teams.getD fid []).drop 1 := by
  have hok := find_swap_sound exp_avg st depth target involved skip _ h
  cases hok with
  | direct _ _ _ _ h1 h2 h3 h4 h5 h6 => exact ⟨h1, h4, h3⟩
  | step _ _ _ _ rest h1 h2 h3 h4 h5 hne hrest => exact absurd rfl hne

/-- Witness for the amended C3 at the size-6 donor state. -/
theorem claim_C3_witness :
    (1 : Nat) ∉ ([0] : List Nat) ∧
      TARGET_TEAM_SIZE + 1 ≤ (donorSt.teams.getD 1 []).length ∧
      mkPerson 31 0 2 0 ∈ (donorSt.teams.getD 1 []).drop 1 :=
  claim_C3 2 donorSt 3 [mkPerson 30 0 2 1] [0] true (mkPerson 31 0 2 0) 1
    (by with_unfolding_all rfl)

/-- C4 amended: the recursive call does not skip the unassigned-source
shortcut (default `skip_unassigned=False`), so a chain may end in an
unassigned-sourced hop; but every hop before the last carries a team source. -/
theorem claim_C4 (exp_avg : ℚ) (st : TState) (depth : Nat) (target : List Person)
    (involved : List Nat) (skip : Bool) (chain : List (Person × Option Nat))
    (h : find_swap exp_avg st depth target involved skip = some chain) :
    chain.dropLast.all (fun hop => hop.2.isSome) = true :=
  chainok_none_last (find_swap_sound exp_avg st depth target involved skip chain h)

/-- Witness for the amended C4 at the concrete recursive-donation state. -/
theorem claim_C4_witness :
    ([(mkPerson 11 0 2 0, some 1), (mkPerson 12 0 2 0, (none : Option Nat))].dropLast.all
      (fun hop => hop.2.isSome)) = true :=
  claim_C4 2 recSt 3 [mkPerson 10 0 2 1] [0] true _ (by with_unfolding_all rfl)

theorem tz_span_single (x : ℚ) : tz_span [x] = 0 := by
  have h1 : tz_span [x] = 24 - (pymod x 24 - pymod x 24 + 24) := by
    simp [tz_span, List.insertionSort, List.orderedInsert, listMax]
  rw [h1]
  ring

theorem getD_set_self (l : List (List Person)) (i : Nat) (v : List Person)
    (h : i < l.length) : (l.set i v).getD i [] = v := by
  rw [List.getD_eq_getElem?_getD, List.getElem?_set_self (by simpa using h)]
  rfl

theorem getD_set_ne (l : List (List Person)) {i j : Nat} (v : List Person) (h : i ≠ j) :
    (l.set i v).getD j [] = l.getD j [] := by
  rw [List.getD_eq_getElem?_getD, List.getD_eq_getElem?_getD, List.getElem?_set_ne h]

theorem teams_sum_singletons (ls : List Person) :
    ((ls.map (fun l => [l])).map Multiset.ofList).sum = Multiset.ofList ls := by
  induction ls with
  | nil => rfl
  | cons a as ih =>
    simp only [List.map_cons, List.sum_cons, ih]
    rw [show Multiset.ofList ([a] : List Person) = {a} from rfl]
    rw [Multiset.singleton_add, Multiset.cons_coe]

theorem mem_teams_sum {ts : List (List Person)} {p : Person} :
    p ∈ (ts.map Multiset.ofList).sum ↔ ∃ t ∈ ts, p ∈ t := by
  induction ts with
  | nil => simp
  | cons t ts ih =>
    simp only [List.map_cons, List.sum_cons, Multiset.mem_add, Multiset.mem_coe, ih,
      List.mem_cons]
    constructor
    · rintro (hp | ⟨u, hu, hpu⟩)
      · exact ⟨t, Or.inl rfl, hp⟩
      · exact ⟨u, Or.inr hu, hpu⟩
    · rintro ⟨u, hu | hu, hpu⟩
      · subst hu; exact Or.inl hpu
      · exact Or.inr ⟨u, hu, hpu⟩

theorem team_coe_le_sum {ts : List (List Person)} {t : List Person} (h : t ∈ ts) :
    Multiset.ofList t ≤ (ts.map Multiset.ofList).sum := by
  induction ts with
  | nil => simp at h
  | cons u us ih =>
    rcases List.mem_cons.mp h with rfl | h'
    · simp only [List.map_cons, List.sum_cons]
      exact Multiset.le_add_right _ _
    · simp only [List.map_cons, List.sum_cons]
      exact le_trans (ih h') (Multiset.le_add_left _ _)

theorem teams_coe_sum_set (v : List Person) :
    ∀ (ts : List (List Person)) (i : Nat), i < ts.length →
      ((ts.set i v).map Multiset.ofList).sum + Multiset.ofList (ts.getD i []) =
        (ts.map Multiset.ofList).sum + Multiset.ofList v := by
  intro ts
  induction ts with
  | nil => intro i h; simp at h
  | cons t ts ih =>
    intro i h
    cases i with
    | zero =>
      simp only [List.set, List.map_cons, List.sum_cons, List.getD_cons_zero]
      abel
    | succ n =>
      simp only [List.set, List.map_cons, List.sum_cons, List.getD_cons_succ]
      rw [add_assoc, ih n (by simpa using h), ← add_assoc]

theorem pyRemove_coe : ∀ {l : List Person} {p : Person}, NodupIds l → p ∈ l →
    Multiset.ofList (pyRemove p l) + {p} = Multiset.ofList l := by
  intro l
  induction l with
  | nil => intro p _ hp; simp at hp
  | cons q tl ih =>
    intro p hN hp
    have hN' : NodupIds tl ∧ q.id ∉ tl.map Person.id := by
      simp only [NodupIds, List.map_cons, List.nodup_cons] at hN
      exact ⟨hN.2, hN.1⟩
    cases hq : (q.id == p.id) with
    | true =>
      have hqp : q = p := by
        have hid : q.id = p.id := by simpa using hq
        rcases List.mem_cons.mp hp with rfl | hptl
        · rfl
        · exact absurd (hid ▸ List.mem_map_of_mem Person.id hptl) hN'.2
      subst hqp
      simp only [pyRemove, List.eraseP_cons, hq, cond_true]
      rw [add_comm, Multiset.singleton_add, Multiset.cons_coe]
    | false =>
      have hpq : p ≠ q := by
        intro he
        subst he
        simp at hq
      have hptl : p ∈ tl := by
        rcases List.mem_cons.mp hp with rfl | hptl
        · exact absurd rfl hpq
        · exact hptl
      have ihr := ih hN'.1 hptl
      simp only [pyRemove, List.eraseP_cons, hq, cond_false]
      rw [← Multiset.cons_coe, ← Multiset.singleton_add, add_assoc]
      rw [show Multiset.ofList (pyRemove p tl) =
        Multiset.ofList (List.eraseP (fun q' => q'.id == p.id) tl) from rfl] at ihr
      rw [ihr, ← Multiset.cons_coe, ← Multiset.singleton_add]

theorem mem_pyRemove_of_id_ne : ∀ {l : List Person} {p q : Person},
    q ∈ l → q.id ≠ p.id → q ∈ pyRemove p l := by
  intro l
  induction l with
  | nil => intro p q hq _; simp at hq
  | cons r tl ih =>
    intro p q hq hne
    cases hr : (r.id == p.id) with
    | true =>
      simp only [pyRemove, List.eraseP_cons, hr, cond_true]
      rcases List.mem_cons.mp hq with rfl | hqtl
      · exact absurd (by simpa using hr) hne
      · exact hqtl
    | false =>
      simp only [pyRemove, List.eraseP_cons, hr, cond_false]
      rcases List.mem_cons.mp hq with rfl | hqtl
      · exact List.mem_cons_self q _
      · exact List.mem_cons_of_mem r (ih hqtl hne)

theorem filterNe_eq_pyRemove : ∀ {l : List Person} {p : Person}, NodupIds l →
    filterNe p l = pyRemove p l := by
  intro l
  induction l with
  | nil => intro p _; rfl
  | cons q tl ih =>
    intro p hN
    have hN' : NodupIds tl ∧ q.id ∉ tl.map Person.id := by
      simp only [NodupIds, List.map_cons, List.nodup_cons] at hN
      exact ⟨hN.2, hN.1⟩
    cases hq : (q.id == p.id) with
    | true =>
      have hid : q.id = p.id := by simpa using hq
      simp only [filterNe, pyRemove, List.eraseP_cons, List.filter_cons, hq, cond_true]
      have hfalse : (q.id != p.id) = false := by simp [hid]
      rw [hfalse]
      simp only [Bool.false_eq_true, if_false]
      rw [List.filter_eq_self.mpr]
      intro a ha
      have hane : a.id ≠ p.id := by
        intro he
        exact hN'.2 (by rw [hid, ← he]; exact List.mem_map_of_mem Person.id ha)
      simpa using hane
    | false =>
      simp only [filterNe, pyRemove, List.eraseP_cons, List.filter_cons, hq, cond_false]
      have htrue : (q.id != p.id) = true := by simpa using hq
      rw [htrue]
      simp only [if_true]
      rw [show (List.filter (fun q' => q'.id != p.id) tl) = filterNe p tl from rfl,
        show (List.eraseP (fun q' => q'.id == p.id) tl) = pyRemove p tl from rfl,
        ih hN'.1]

theorem pyRemove_length {l : List Person} {p : Person} (hN : NodupIds l) (hp : p ∈ l) :
    (pyRemove p l).length + 1 = l.length := by
  have h := congrArg Multiset.card (pyRemove_coe hN hp)
  simpa using h

theorem nodupIds_of_coe_le {l : List Person} {m : Multiset Person}
    (h : Multiset.ofList l ≤ m) (hm : (m.map Person.id).Nodup) : NodupIds l := by
  have h2 : (Multiset.ofList l).map Person.id ≤ m.map Person.id :=
    Multiset.map_le_map h
  have h3 := Multiset.nodup_of_le h2 hm
  rw [Multiset.map_coe] at h3
  exact Multiset.coe_nodup.mp h3

theorem mstate_flatten (st : TState) :
    Mstate st = Multiset.ofList (st.teams.flatten ++ st.unassigned) := by
  rw [Mstate, ← Multiset.coe_add]
  congr 1
  induction st.teams with
  | nil => rfl
  | cons t ts ih =>
    simp only [List.map_cons, List.sum_cons, List.flatten_cons, ← Multiset.coe_add, ih]

theorem getD_mem {l : List (List Person)} {i : Nat} (h : i < l.length) :
    l.getD i [] ∈ l := by
  rw [List.getD_eq_getElem l [] h]
  exact List.getElem_mem h

theorem unassigned_coe_le (st : TState) : Multiset.ofList st.unassigned ≤ Mstate st := by
  rw [Mstate]
  exact Multiset.le_add_left _ _

theorem team_getD_coe_le (st : TState) {i : Nat} (h : i < st.teams.length) :
    Multiset.ofList (st.teams.getD i []) ≤ Mstate st := by
  rw [Mstate]
  exact le_trans (team_coe_le_sum (getD_mem h)) (Multiset.le_add_right _ _)

theorem mstate_ids_nodup {ppl : List Person} {st : TState} (hN : NodupIds ppl)
    (hM : Mstate st = Multiset.ofList ppl) : ((Mstate st).map Person.id).Nodup := by
  rw [hM, Multiset.map_coe]
  exact Multiset.coe_nodup.mpr hN

theorem sum_set_append (ts : List (List Person)) (tgt : Nat) (person : Person)
    (h : tgt < ts.length) :
    ((ts.set tgt (ts.getD tgt [] ++ [person])).map Multiset.ofList).sum =
      (ts.map Multiset.ofList).sum + {person} := by
  have hsum := teams_coe_sum_set (ts.getD tgt [] ++ [person]) ts tgt h
  have hco : Multiset.ofList (ts.getD tgt [] ++ [person]) =
      Multiset.ofList (ts.getD tgt []) + {person} := by
    rw [← Multiset.coe_add]
    rfl
  rw [hco] at hsum
  have h' : ((ts.set tgt (ts.getD tgt [] ++ [person])).map Multiset.ofList).sum +
      Multiset.ofList (ts.getD tgt []) =
      ((ts.map Multiset.ofList).sum + {person}) + Multiset.ofList (ts.getD tgt []) := by
    rw [hsum]
    abel
  exact add_right_cancel h'

theorem sum_set_remove (ts : List (List Person)) (fid : Nat) (person : Person)
    (h : fid < ts.length) (hN : NodupIds (ts.getD fid []))
    (hp : person ∈ ts.getD fid []) :
    ((ts.set fid (pyRemove person (ts.getD fid []))).map Multiset.ofList).sum + {person} =
      (ts.map Multiset.ofList).sum := by
  have hsum := teams_coe_sum_set (pyRemove person (ts.getD fid [])) ts fid h
  have hrem := pyRemove_coe hN hp
  have h' : (((ts.set fid (pyRemove person (ts.getD fid []))).map Multiset.ofList).sum +
      {person}) + Multiset.ofList (pyRemove person (ts.getD fid [])) =
      (ts.map Multiset.ofList).sum +
        Multiset.ofList (pyRemove person (ts.getD fid [])) := by
    calc ((ts.set fid (pyRemove person (ts.getD fid []))).map Multiset.ofList).sum +
          {person} + Multiset.ofList (pyRemove person (ts.getD fid []))
        = ((ts.set fid (pyRemove person (ts.getD fid []))).map Multiset.ofList).sum +
          (Multiset.ofList (pyRemove person (ts.getD fid [])) + {person}) := by abel
      _ = ((ts.set fid (pyRemove person (ts.getD fid []))).map Multiset.ofList).sum +
          Multiset.ofList (ts.getD fid []) := by rw [hrem]
      _ = (ts.map Multiset.ofList).sum +
          Multiset.ofList (pyRemove person (ts.getD fid [])) := hsum
  exact add_right_cancel h'

theorem apply_chain_spec {st : TState} (hNod : ((Mstate st).map Person.id).Nodup) :
    ∀ (chain : List (Person × Option Nat)) (vT : List Person) (involved : List Nat),
      ChainOK st vT involved chain →
      ∀ (st' : TState) (tgt : Nat),
      tgt ∈ involved →
      tgt < st.teams.length →
      st'.teams.length = st.teams.length →
      st'.unassigned = st.unassigned →
      st'.teams.getD tgt [] = vT →
      (∀ j, j ∉ involved → st'.teams.getD j [] = st.teams.getD j []) →
      Mstate st' = Mstate st →
      (Mstate (apply_swap_chain st' tgt chain) = Mstate st ∧
       (apply_swap_chain st' tgt chain).teams.length = st.teams.length ∧
       (∀ j, j ∈ involved → j ≠ tgt →
         (apply_swap_chain st' tgt chain).teams.getD j [] = st'.teams.getD j []) ∧
       (∃ p, (apply_swap_chain st' tgt chain).teams.getD tgt [] = vT ++ [p]) ∧
       (∀ j, j ∉ involved →
         ((apply_swap_chain st' tgt chain).teams.getD j []).length ≤
           (st'.teams.getD j []).length) ∧
       ((∀ j, j ≠ tgt → tz_span ((st'.teams.getD j []).map Person.tz) ≤ MAX_TZ_SPAN) →
         ∀ j, tz_span (((apply_swap_chain st' tgt chain).teams.getD j []).map Person.tz) ≤
           MAX_TZ_SPAN)) := by
  intro chain vT involved hok
  induction hok with
  | fromUnassigned target involved person hmem hspan =>
    intro st' tgt htgt htlt hlen hun htv huntouched hM
    have htlt' : tgt < st'.teams.length := by rw [hlen]; exact htlt
    have hteams : (apply_swap_chain st' tgt [(person, none)]).teams =
        st'.teams.set tgt (st'.teams.getD tgt [] ++ [person]) := rfl
    have hunres : (apply_swap_chain st' tgt [(person, none)]).unassigned =
        pyRemove person st'.unassigned := rfl
    have hNun : NodupIds st'.unassigned := by
      rw [hun]
      exact nodupIds_of_coe_le (unassigned_coe_le st) hNod
    have hmem' : person ∈ st'.unassigned := by rw [hun]; exact hmem
    have hA := sum_set_append st'.teams tgt person htlt'
    have hrem := pyRemove_coe hNun hmem'
    constructor
    · have hcan : Mstate (apply_swap_chain st' tgt [(person, none)]) + {person} =
          Mstate st' + {person} := by
        rw [Mstate, hteams, hunres, hA, Mstate]
        calc (st'.teams.map Multiset.ofList).sum + {person} +
              Multiset.ofList (pyRemove person st'.unassigned) + {person}
            = (st'.teams.map Multiset.ofList).sum +
              (Multiset.ofList (pyRemove person st'.unassigned) + {person}) + {person} := by
              abel
          _ = (st'.teams.map Multiset.ofList).sum + Multiset.ofList st'.unassigned +
              {person} := by rw [hrem]
      have h2 := add_right_cancel hcan
      rw [h2, hM]
    refine ⟨?_, ?_, ?_, ?_, ?_⟩
    · rw [hteams, List.length_set, hlen]
    · intro j hj hjne
      rw [hteams]
      exact getD_set_ne _ _ (fun he => hjne he.symm)
    · refine ⟨person, ?_⟩
      rw [hteams, getD_set_self _ _ _ htlt', htv]
    · intro j hj
      have hjne : j ≠ tgt := fun he => hj (he ▸ htgt)
      rw [hteams, getD_set_ne _ _ (fun he => hjne he.symm)]
    · intro hsp j
      rw [hteams]
      by_cases hjt : j = tgt
      · subst hjt
        rw [getD_set_self _ _ _ htlt', htv, List.map_append]
        exact hspan
      · rw [getD_set_ne _ _ (fun he => hjt he.symm)]
        exact hsp j hjt
  | direct target involved person fid hinv hflt hdrop hsize hspanT hspanF =>
    intro st' tgt htgt htlt hlen hun htv huntouched hM
    have hft : fid ≠ tgt := fun he => hinv (he ▸ htgt)
    have htlt' : tgt < st'.teams.length := by rw [hlen]; exact htlt
    have hteams : (apply_swap_chain st' tgt [(person, some fid)]).teams =
        (st'.teams.set tgt (st'.teams.getD tgt [] ++ [person])).set fid
          (pyRemove person ((st'.teams.set tgt
            (st'.teams.getD tgt [] ++ [person])).getD fid [])) := rfl
    have hunres : (apply_swap_chain st' tgt [(person, some fid)]).unassigned =
        st'.unassigned := rfl
    have hT1fid : (st'.teams.set tgt (st'.teams.getD tgt [] ++ [person])).getD fid [] =
        st.teams.getD fid [] := by
      rw [getD_set_ne _ _ (fun he => hft he.symm)]
      exact huntouched fid hinv
    have hNT : NodupIds (st.teams.getD fid []) :=
      nodupIds_of_coe_le (team_getD_coe_le st hflt) hNod
    have hpT : person ∈ st.teams.getD fid [] := List.mem_of_mem_drop hdrop
    have hflt1 : fid < (st'.teams.set tgt (st'.teams.getD tgt [] ++ [person])).length := by
      rw [List.length_set, hlen]
      exact hflt
    have hA := sum_set_append st'.teams tgt person htlt'
    have hB := sum_set_remove (st'.teams.set tgt (st'.teams.getD tgt [] ++ [person])) fid
      person hflt1 (by rw [hT1fid]; exact hNT) (by rw [hT1fid]; exact hpT)
    rw [hA] at hB
    have hsum2 : (((st'.teams.set tgt (st'.teams.getD tgt [] ++ [person])).set fid
        (pyRemove person ((st'.teams.set tgt
          (st'.teams.getD tgt [] ++ [person])).getD fid []))).map Multiset.ofList).sum =
        (st'.teams.map Multiset.ofList).sum := add_right_cancel hB
    constructor
    · rw [Mstate, hteams, hunres, hsum2, ← Mstate, hM]
    refine ⟨?_, ?_, ?_, ?_, ?_⟩
    · rw [hteams, List.length_set, List.length_set, hlen]
    · intro j hj hjne
      have hjf : j ≠ fid := fun he => hinv (he ▸ hj)
      rw [hteams, getD_set_ne _ _ (fun he => hjf he.symm),
        getD_set_ne _ _ (fun he => hjne he.symm)]
    · refine ⟨person, ?_⟩
      rw [hteams, getD_set_ne _ _ hft, getD_set_self _ _ _ htlt', htv]
    · intro j hj
      by_cases hjf : j = fid
      · subst hjf
        rw [hteams, getD_set_self _ _ _ hflt1, hT1fid]
        have hl := pyRemove_length hNT hpT
        have hst' : st'.teams.getD j [] = st.teams.getD j [] := huntouched j hj
        rw [hst']
        omega
      · have hjt : j ≠ tgt := fun he => hj (he ▸ htgt)
        rw [hteams, getD_set_ne _ _ (fun he => hjf he.symm),
          getD_set_ne _ _ (fun he => hjt he.symm)]
    · intro hsp j
      rw [hteams]
      by_cases hjf : j = fid
      · subst hjf
        rw [getD_set_self _ _ _ hflt1, hT1fid, ← filterNe_eq_pyRemove hNT]
        exact hspanF
      · rw [getD_set_ne _ _ (fun he => hjf he.symm)]
        by_cases hjt : j = tgt
        · subst hjt
          rw [getD_set_self _ _ _ htlt', htv, List.map_append]
          exact hspanT
        · rw [getD_set_ne _ _ (fun he => hjt he.symm)]
          exact hsp j hjt
  | step target involved person fid rest hinv hflt hdrop hsize hspanT hne hrest ih =>
    intro st' tgt htgt htlt hlen hun htv huntouched hM
    have hft : fid ≠ tgt := fun he => hinv (he ▸ htgt)
    have htlt' : tgt < st'.teams.length := by rw [hlen]; exact htlt
    have hres : apply_swap_chain st' tgt ((person, some fid) :: rest) =
        apply_swap_chain (apply_swap_chain st' tgt [(person, some fid)]) fid rest := rfl
    have hteams : (apply_swap_chain st' tgt [(person, some fid)]).teams =
        (st'.teams.set tgt (st'.teams.getD tgt [] ++ [person])).set fid
          (pyRemove person ((st'.teams.set tgt
            (st'.teams.getD tgt [] ++ [person])).getD fid [])) := rfl
    have hunres : (apply_swap_chain st' tgt [(person, some fid)]).unassigned =
        st'.unassigned := rfl
    have hT1fid : (st'.teams.set tgt (st'.teams.getD tgt [] ++ [person])).getD fid [] =
        st.teams.getD fid [] := by
      rw [getD_set_ne _ _ (fun he => hft he.symm)]
      exact huntouched fid hinv
    have hNT : NodupIds (st.teams.getD fid []) :=
      nodupIds_of_coe_le (team_getD_coe_le st hflt) hNod
    have hpT : person ∈ st.teams.getD fid [] := List.mem_of_mem_drop hdrop
    have hflt1 : fid < (st'.teams.set tgt (st'.teams.getD tgt [] ++ [person])).length := by
      rw [List.length_set, hlen]
      exact hflt
    have hA := sum_set_append st'.teams tgt person htlt'
    have hB := sum_set_remove (st'.teams.set tgt (st'.teams.getD tgt [] ++ [person])) fid
      person hflt1 (by rw [hT1fid]; exact hNT) (by rw [hT1fid]; exact hpT)
    rw [hA] at hB
    have hsum2 : (((st'.teams.set tgt (st'.teams.getD tgt [] ++ [person])).set fid
        (pyRemove person ((st'.teams.set tgt
          (st'.teams.getD tgt [] ++ [person])).getD fid []))).map Multiset.ofList).sum =
        (st'.teams.map Multiset.ofList).sum := add_right_cancel hB
    have hM2 : Mstate (apply_swap_chain st' tgt [(person, some fid)]) = Mstate st := by
      rw [Mstate, hteams, hunres, hsum2, ← Mstate, hM]
    have hlen2 : (apply_swap_chain st' tgt [(person, some fid)]).teams.length =
        st.teams.length := by
      rw [hteams, List.length_set, List.length_set, hlen]
    have hgetfid : (apply_swap_chain st' tgt [(person, some fid)]).teams.getD fid [] =
        filterNe person (st.teams.getD fid []) := by
      rw [hteams, getD_set_self _ _ _ hflt1, hT1fid, filterNe_eq_pyRemove hNT]
    have hunt2 : ∀ j, j ∉ (fid :: involved) →
        (apply_swap_chain st' tgt [(person, some fid)]).teams.getD j [] =
          st.teams.getD j [] := by
      intro j hj
      rw [List.mem_cons] at hj
      push_neg at hj
      have hjt : j ≠ tgt := fun he => hj.2 (he ▸ htgt)
      rw [hteams, getD_set_ne _ _ (fun he => hj.1 he.symm),
        getD_set_ne _ _ (fun he => hjt he.symm)]
      exact huntouched j hj.2
    have hget2 : ∀ j, j ≠ fid → j ≠ tgt →
        (apply_swap_chain st' tgt [(person, some fid)]).teams.getD j [] =
          st'.teams.getD j [] := by
      intro j h1 h2
      rw [hteams, getD_set_ne _ _ (fun he => h1 he.symm),
        getD_set_ne _ _ (fun he => h2 he.symm)]
    have hget2t : (apply_swap_chain st' tgt [(person, some fid)]).teams.getD tgt [] =
        st'.teams.getD tgt [] ++ [person] := by
      rw [hteams, getD_set_ne _ _ hft, getD_set_self _ _ _ htlt']
    obtain ⟨c1, c2, c3, c4, c5, c6⟩ := ih (apply_swap_chain st' tgt [(person, some fid)])
      fid (List.mem_cons_self fid involved) hflt hlen2 (by rw [hunres, hun]) hgetfid
      hunt2 hM2
    rw [hres]
    refine ⟨c1, c2, ?_, ?_, ?_, ?_⟩
    · intro j hj hjne
      have hjf : j ≠ fid := fun he => hinv (he ▸ hj)
      rw [c3 j (List.mem_cons_of_mem fid hj) hjf]
      exact hget2 j hjf hjne
    · refine ⟨person, ?_⟩
      rw [c3 tgt (List.mem_cons_of_mem fid htgt) (fun he => hft he.symm), hget2t, htv]
    · intro j hj
      by_cases hjf : j = fid
      · subst hjf
        obtain ⟨p', hp'⟩ := c4
        have hlp := pyRemove_length hNT hpT
        have hfl : (filterNe person (st.teams.getD j [])).length + 1 =
            (st.teams.getD j []).length := by
          rw [filterNe_eq_pyRemove hNT]
          exact hlp
        rw [hp', List.length_append]
        have hst' : st'.teams.getD j [] = st.teams.getD j [] := huntouched j hj
        rw [hst']
        simp only [List.length_cons, List.length_nil]
        omega
      · have hjni : j ∉ fid :: involved := by
          rw [List.mem_cons]
          push_neg
          exact ⟨hjf, hj⟩
        have hjt : j ≠ tgt := fun he => hj (he ▸ htgt)
        have h5 := c5 j hjni
        rw [hget2 j hjf hjt] at h5
        exact h5
    · intro hsp
      apply c6
      intro j hjf
      by_cases hjt : j = tgt
      · subst hjt
        rw [hget2t, htv, List.map_append]
        exact hspanT
      · rw [hget2 j hjf hjt]
        exact hsp j hjt

theorem repair_team_spec {ppl : List Person} (hN : NodupIds ppl) (exp_avg : ℚ) :
    ∀ (n : Nat) (st : TState) (tid : Nat),
      tid < st.teams.length →
      Mstate st = Multiset.ofList ppl →
      (∀ j, tz_span ((st.teams.getD j []).map Person.tz) ≤ MAX_TZ_SPAN) →
      (∀ j, (st.teams.getD j []).length ≤ TARGET_TEAM_SIZE + 1) →
      (st.teams.getD tid []).length + n ≤ TARGET_TEAM_SIZE →
      (Mstate (repair_team exp_avg st tid n) = Multiset.ofList ppl ∧
       (repair_team exp_avg st tid n).teams.length = st.teams.length ∧
       (∀ j, tz_span (((repair_team exp_avg st tid n).teams.getD j []).map Person.tz) ≤
         MAX_TZ_SPAN) ∧
       (∀ j, ((repair_team exp_avg st tid n).teams.getD j []).length ≤
         TARGET_TEAM_SIZE + 1)) := by
  intro n
  induction n with
  | zero =>
    intro st tid _ hM hsp hlen _
    exact ⟨hM, rfl, hsp, hlen⟩
  | succ m ih =>
    intro st tid htid hM hsp hlen hcnt
    rw [repair_team]
    cases hf : find_swap exp_avg st 3 (st.teams.getD tid []) [tid] true with
    | none => exact ⟨hM, rfl, hsp, hlen⟩
    | some chain =>
      have hok := find_swap_sound exp_avg st 3 _ [tid] true chain hf
      have hNod := mstate_ids_nodup hN hM
      obtain ⟨c1, c2, c3, c4, c5, c6⟩ := apply_chain_spec hNod chain _ [tid] hok st tid
        (List.mem_cons_self tid []) htid rfl rfl rfl (fun j _ => rfl) rfl
      obtain ⟨p, hp⟩ := c4
      have hM2 : Mstate (apply_swap_chain st tid chain) = Multiset.ofList ppl := by
        rw [c1, hM]
      have hsp2 : ∀ j,
          tz_span (((apply_swap_chain st tid chain).teams.getD j []).map Person.tz) ≤
            MAX_TZ_SPAN :=
        c6 (fun j _ => hsp j)
      have hlen2 : ∀ j, ((apply_swap_chain st tid chain).teams.getD j []).length ≤
          TARGET_TEAM_SIZE + 1 := by
        intro j
        by_cases hjt : j = tid
        · subst hjt
          rw [hp, List.length_append]
          simp only [List.length_cons, List.length_nil]
          omega
        · refine le_trans (c5 j ?_) (hlen j)
          simp [hjt]
      have htid2 : tid < (apply_swap_chain st tid chain).teams.length := by
        rw [c2]
        exact htid
      have hcnt2 : ((apply_swap_chain st tid chain).teams.getD tid []).length + m ≤
          TARGET_TEAM_SIZE := by
        rw [hp, List.length_append]
        simp only [List.length_cons, List.length_nil]
        omega
      obtain ⟨d1, d2, d3, d4⟩ := ih (apply_swap_chain st tid chain) tid htid2 hM2 hsp2
        hlen2 hcnt2
      exact ⟨d1, by rw [d2, c2], d3, d4⟩

theorem phase3_fold_spec {ppl : List Person} (hN : NodupIds ppl) (exp_avg : ℚ) (N : Nat) :
    ∀ (l : List Nat) (st : TState),
      (∀ tid ∈ l, tid < N) →
      st.teams.length = N →
      Mstate st = Multiset.ofList ppl →
      (∀ j, tz_span ((st.teams.getD j []).map Person.tz) ≤ MAX_TZ_SPAN) →
      (∀ j, (st.teams.getD j []).length ≤ TARGET_TEAM_SIZE + 1) →
      (Mstate (l.foldl (fun st' tid => repair_team exp_avg st' tid
          (TARGET_TEAM_SIZE - (st'.teams.getD tid []).length)) st) = Multiset.ofList ppl ∧
       (l.foldl (fun st' tid => repair_team exp_avg st' tid
          (TARGET_TEAM_SIZE - (st'.teams.getD tid []).length)) st).teams.length = N ∧
       (∀ j, tz_span (((l.foldl (fun st' tid => repair_team exp_avg st' tid
          (TARGET_TEAM_SIZE - (st'.teams.getD tid []).length)) st).teams.getD j []).map
            Person.tz) ≤ MAX_TZ_SPAN) ∧
       (∀ j, ((l.foldl (fun st' tid => repair_team exp_avg st' tid
          (TARGET_TEAM_SIZE - (st'.teams.getD tid []).length)) st).teams.getD j []).length ≤
            TARGET_TEAM_SIZE + 1)) := by
  intro l
  induction l with
  | nil =>
    intro st _ hlN hM hsp hlen
    exact ⟨hM, hlN, hsp, hlen⟩
  | cons tid l' ih =>
    intro st hb hlN hM hsp hlen
    simp only [List.foldl_cons]
    have htid : tid < st.teams.length := by
      rw [hlN]
      exact hb tid (List.mem_cons_self tid l')
    by_cases hc : (st.teams.getD tid []).length ≤ TARGET_TEAM_SIZE
    · obtain ⟨d1, d2, d3, d4⟩ := repair_team_spec hN exp_avg
        (TARGET_TEAM_SIZE - (st.teams.getD tid []).length) st tid htid hM hsp hlen
        (by omega)
      exact ih _ (fun x hx => hb x (List.mem_cons_of_mem tid hx)) (by rw [d2, hlN]) d1 d3 d4
    · have hz : TARGET_TEAM_SIZE - (st.teams.getD tid []).length = 0 := by omega
      rw [hz]
      exact ih _ (fun x hx => hb x (List.mem_cons_of_mem tid hx)) hlN hM hsp hlen

theorem phase3_spec {ppl : List Person} (hN : NodupIds ppl) (exp_avg : ℚ) (st : TState)
    (hM : Mstate st = Multiset.ofList ppl)
    (hsp : ∀ j, tz_span ((st.teams.getD j []).map Person.tz) ≤ MAX_TZ_SPAN)
    (hlen : ∀ j, (st.teams.getD j []).length ≤ TARGET_TEAM_SIZE + 1) :
    Mstate (phase3 exp_avg st) = Multiset.ofList ppl ∧
    (phase3 exp_avg st).teams.length = st.teams.length ∧
    (∀ j, tz_span (((phase3 exp_avg st).teams.getD j []).map Person.tz) ≤ MAX_TZ_SPAN) ∧
    (∀ j, ((phase3 exp_avg st).teams.getD j []).length ≤ TARGET_TEAM_SIZE + 1) := by
  exact phase3_fold_spec hN exp_avg st.teams.length (List.range st.teams.length) st
    (fun tid h => List.mem_range.mp h) rfl hM hsp hlen

theorem assign_step_spec {ppl : List Person} (hN : NodupIds ppl) (exp_avg : ℚ)
    (st : TState) (person : Person)
    (hM : Mstate st = Multiset.ofList ppl) (hmem : person ∈ st.unassigned)
    (hsp : ∀ j, tz_span ((st.teams.getD j []).map Person.tz) ≤ MAX_TZ_SPAN)
    (hlen : ∀ j, (st.teams.getD j []).length ≤ TARGET_TEAM_SIZE + 1) :
    Mstate (assign_step exp_avg st person) = Multiset.ofList ppl ∧
    (assign_step exp_avg st person).teams.length = st.teams.length ∧
    (∀ j, tz_span (((assign_step exp_avg st person).teams.getD j []).map Person.tz) ≤
      MAX_TZ_SPAN) ∧
    (∀ j, ((assign_step exp_avg st person).teams.getD j []).length ≤
      TARGET_TEAM_SIZE + 1) ∧
    (∀ q ∈ st.unassigned, q.id ≠ person.id →
      q ∈ (assign_step exp_avg st person).unassigned) := by
  have hNod := mstate_ids_nodup hN hM
  have hNun : NodupIds st.unassigned :=
    nodupIds_of_coe_le (unassigned_coe_le st) hNod
  cases hm : pyMax qLt2 (fun i =>
      (-(max TARGET_TZ_SPAN
          (tz_span ((st.teams.getD i []).map Person.tz ++ [person.tz]))),
        exp_improvement person (st.teams.getD i []) exp_avg))
      ((List.range st.teams.length).filter fun i =>
        decide ((st.teams.getD i []).length ≤ TARGET_TEAM_SIZE ∧
          tz_span ((st.teams.getD i []).map Person.tz ++ [person.tz]) ≤ MAX_TZ_SPAN)) with
  | none =>
    have hid : assign_step exp_avg st person = st := by
      rw [assign_step, hm]
    rw [hid]
    exact ⟨hM, rfl, hsp, hlen, fun q hq _ => hq⟩
  | some i =>
    have hteams : (assign_step exp_avg st person).teams =
        st.teams.set i (st.teams.getD i [] ++ [person]) := by
      rw [assign_step, hm]
    have hunres : (assign_step exp_avg st person).unassigned =
        pyRemove person st.unassigned := by
      rw [assign_step, hm]
    have hi := pyMax_mem hm
    rw [List.mem_filter] at hi
    have hirange : i < st.teams.length := List.mem_range.mp hi.1
    have hcond := of_decide_eq_true hi.2
    constructor
    · have hA := sum_set_append st.teams i person hirange
      have hrem := pyRemove_coe hNun hmem
      have hcan : Mstate (assign_step exp_avg st person) + {person} =
          Mstate st + {person} := by
        rw [Mstate, Mstate, hteams, hunres, hA]
        calc (st.teams.map Multiset.ofList).sum + {person} +
              Multiset.ofList (pyRemove person st.unassigned) + {person}
            = (st.teams.map Multiset.ofList).sum +
              (Multiset.ofList (pyRemove person st.unassigned) + {person}) + {person} := by
              abel
          _ = (st.teams.map Multiset.ofList).sum + Multiset.ofList st.unassigned +
              {person} := by rw [hrem]
      have h2 := add_right_cancel hcan
      rw [h2, hM]
    refine ⟨by rw [hteams, List.length_set], ?_, ?_, ?_⟩
    · intro j
      rw [hteams]
      by_cases hji : j = i
      · subst hji
        rw [getD_set_self _ _ _ hirange, List.map_append]
        exact hcond.2
      · rw [getD_set_ne _ _ (fun he => hji he.symm)]
        exact hsp j
    · intro j
      rw [hteams]
      by_cases hji : j = i
      · subst hji
        rw [getD_set_self _ _ _ hirange, List.length_append]
        simp only [List.length_cons, List.length_nil]
        omega
      · rw [getD_set_ne _ _ (fun he => hji he.symm)]
        exact hlen j
    · intro q hq hne
      rw [hunres]
      exact mem_pyRemove_of_id_ne hq hne

theorem phase2_go_spec {ppl : List Person} (hN : NodupIds ppl) (exp_avg : ℚ) :
    ∀ (l : List Person) (st : TState),
      (∀ q ∈ l, q ∈ st.unassigned) →
      NodupIds l →
      Mstate st = Multiset.ofList ppl →
      (∀ j, tz_span ((st.teams.getD j []).map Person.tz) ≤ MAX_TZ_SPAN) →
      (∀ j, (st.teams.getD j []).length ≤ TARGET_TEAM_SIZE + 1) →
      (Mstate (phase2_go exp_avg st l) = Multiset.ofList ppl ∧
       (phase2_go exp_avg st l).teams.length = st.teams.length ∧
       (∀ j, tz_span (((phase2_go exp_avg st l).teams.getD j []).map Person.tz) ≤
         MAX_TZ_SPAN) ∧
       (∀ j, ((phase2_go exp_avg st l).teams.getD j []).length ≤
         TARGET_TEAM_SIZE + 1)) := by
  intro l
  induction l with
  | nil =>
    intro st _ _ hM hsp hlen
    exact ⟨hM, rfl, hsp, hlen⟩
  | cons p l' ih =>
    intro st hsub hNl hM hsp hlen
    rw [phase2_go]
    have hp : p ∈ st.unassigned := hsub p (List.mem_cons_self p l')
    obtain ⟨d1, d2, d3, d4, d5⟩ := assign_step_spec hN exp_avg st p hM hp hsp hlen
    have hNl' : NodupIds l' ∧ p.id ∉ l'.map Person.id := by
      simp only [NodupIds, List.map_cons, List.nodup_cons] at hNl
      exact ⟨hNl.2, hNl.1⟩
    have hsub' : ∀ q ∈ l', q ∈ (assign_step exp_avg st p).unassigned := by
      intro q hq
      refine d5 q (hsub q (List.mem_cons_of_mem p hq)) ?_
      intro he
      exact hNl'.2 (he ▸ List.mem_map_of_mem Person.id hq)
    obtain ⟨e1, e2, e3, e4⟩ := ih (assign_step exp_avg st p) hsub' hNl'.1 d1 d3 d4
    exact ⟨e1, by rw [e2, d2], e3, e4⟩

theorem phase2_spec {ppl : List Person} (hN : NodupIds ppl) (exp_avg : ℚ) (st : TState)
    (hM : Mstate st = Multiset.ofList ppl)
    (hsp : ∀ j, tz_span ((st.teams.getD j []).map Person.tz) ≤ MAX_TZ_SPAN)
    (hlen : ∀ j, (st.teams.getD j []).length ≤ TARGET_TEAM_SIZE + 1) :
    Mstate (phase2 exp_avg st) = Multiset.ofList ppl ∧
    (phase2 exp_avg st).teams.length = st.teams.length ∧
    (∀ j, tz_span (((phase2 exp_avg st).teams.getD j []).map Person.tz) ≤ MAX_TZ_SPAN) ∧
    (∀ j, ((phase2 exp_avg st).teams.getD j []).length ≤ TARGET_TEAM_SIZE + 1) := by
  have hNun : NodupIds st.unassigned :=
    nodupIds_of_coe_le (unassigned_coe_le st) (mstate_ids_nodup hN hM)
  exact phase2_go_spec hN exp_avg st.unassigned st (fun q hq => hq) hNun hM hsp hlen

theorem draft_step_spec {ppl : List Person} (hN : NodupIds ppl) (exp_avg : ℚ)
    (st : TState) (i : Nat) (hi : i < st.teams.length)
    (hM : Mstate st = Multiset.ofList ppl)
    (hsp : ∀ j, tz_span ((st.teams.getD j []).map Person.tz) ≤ MAX_TZ_SPAN) :
    Mstate (draft_step exp_avg st i) = Multiset.ofList ppl ∧
    (draft_step exp_avg st i).teams.length = st.teams.length ∧
    (∀ j, tz_span (((draft_step exp_avg st i).teams.getD j []).map Person.tz) ≤
      MAX_TZ_SPAN) ∧
    (∀ j, ((draft_step exp_avg st i).teams.getD j []).length ≤
      (st.teams.getD j []).length + (if j = i then 1 else 0)) := by
  have hNod := mstate_ids_nodup hN hM
  have hNun : NodupIds st.unassigned :=
    nodupIds_of_coe_le (unassigned_coe_le st) hNod
  cases hm : pyMax qLt2 (fun person =>
      (-(max TARGET_TZ_SPAN
          (tz_span ((st.teams.getD i []).map Person.tz ++ [person.tz]))),
        exp_improvement person (st.teams.getD i []) exp_avg))
      (st.unassigned.filter fun p =>
        decide (MAX_TZ_SPAN ≥ tz_span ((st.teams.getD i []).map Person.tz ++ [p.tz]))) with
  | none =>
    have hid : draft_step exp_avg st i = st := by
      rw [draft_step, hm]
    rw [hid]
    refine ⟨hM, rfl, hsp, fun j => ?_⟩
    split <;> omega
  | some best =>
    have hteams : (draft_step exp_avg st i).teams =
        st.teams.set i (st.teams.getD i [] ++ [best]) := by
      rw [draft_step, hm]
    have hunres : (draft_step exp_avg st i).unassigned =
        pyRemove best st.unassigned := by
      rw [draft_step, hm]
    have hb := pyMax_mem hm
    rw [List.mem_filter] at hb
    have hmem : best ∈ st.unassigned := hb.1
    have hcond : tz_span ((st.teams.getD i []).map Person.tz ++ [best.tz]) ≤
        MAX_TZ_SPAN := ge_iff_le.mp (of_decide_eq_true hb.2)
    constructor
    · have hA := sum_set_append st.teams i best hi
      have hrem := pyRemove_coe hNun hmem
      have hcan : Mstate (draft_step exp_avg st i) + {best} =
          Mstate st + {best} := by
        rw [Mstate, Mstate, hteams, hunres, hA]
        calc (st.teams.map Multiset.ofList).sum + {best} +
              Multiset.ofList (pyRemove best st.unassigned) + {best}
            = (st.teams.map Multiset.ofList).sum +
              (Multiset.ofList (pyRemove best st.unassigned) + {best}) + {best} := by
              abel
          _ = (st.teams.map Multiset.ofList).sum + Multiset.ofList st.unassigned +
              {best} := by rw [hrem]
      have h2 := add_right_cancel hcan
      rw [h2, hM]
    refine ⟨by rw [hteams, List.length_set], ?_, ?_⟩
    · intro j
      rw [hteams]
      by_cases hji : j = i
      · subst hji
        rw [getD_set_self _ _ _ hi, List.map_append]
        exact hcond
      · rw [getD_set_ne _ _ (fun he => hji he.symm)]
        exact hsp j
    · intro j
      rw [hteams]
      by_cases hji : j = i
      · subst hji
        rw [getD_set_self _ _ _ hi, List.length_append, if_pos rfl]
        simp
      · rw [getD_set_ne _ _ (fun he => hji he.symm), if_neg hji]
        omega

theorem phase1_round_spec {ppl : List Person} (hN : NodupIds ppl) (exp_avg : ℚ) :
    ∀ (l : List Nat) (st : TState),
      (∀ x ∈ l, x < st.teams.length) →
      Mstate st = Multiset.ofList ppl →
      (∀ j, tz_span ((st.teams.getD j []).map Person.tz) ≤ MAX_TZ_SPAN) →
      (Mstate (l.foldl (draft_step exp_avg) st) = Multiset.ofList ppl ∧
       (l.foldl (draft_step exp_avg) st).teams.length = st.teams.length ∧
       (∀ j, tz_span (((l.foldl (draft_step exp_avg) st).teams.getD j []).map Person.tz) ≤
         MAX_TZ_SPAN) ∧
       (∀ j, ((l.foldl (draft_step exp_avg) st).teams.getD j []).length ≤
         (st.teams.getD j []).length + l.count j)) := by
  intro l
  induction l with
  | nil =>
    intro st _ hM hsp
    exact ⟨hM, rfl, hsp, fun j => by simp⟩
  | cons x l' ih =>
    intro st hb hM hsp
    simp only [List.foldl_cons]
    have hx : x < st.teams.length := hb x (List.mem_cons_self x l')
    obtain ⟨d1, d2, d3, d4⟩ := draft_step_spec hN exp_avg st x hx hM hsp
    have hb' : ∀ y ∈ l', y < (draft_step exp_avg st x).teams.length := by
      intro y hy
      rw [d2]
      exact hb y (List.mem_cons_of_mem x hy)
    obtain ⟨e1, e2, e3, e4⟩ := ih (draft_step exp_avg st x) hb' d1 d3
    refine ⟨e1, by rw [e2, d2], e3, ?_⟩
    intro j
    have h1 := e4 j
    have h2 := d4 j
    have hc : (x :: l').count j = l'.count j + (if j = x then 1 else 0) := by
      by_cases hjx : j = x
      · subst hjx
        simp [List.count_cons]
      · simp [List.count_cons, hjx]
    rw [hc]
    by_cases hjx : j = x
    · rw [if_pos hjx] at h2 ⊢
      omega
    · rw [if_neg hjx] at h2 ⊢
      omega

theorem phase1_rounds_spec {ppl : List Person} (hN : NodupIds ppl) (exp_avg : ℚ) :
    ∀ (rl : List Nat) (c : Nat) (st : TState),
      Mstate st = Multiset.ofList ppl →
      (∀ j, tz_span ((st.teams.getD j []).map Person.tz) ≤ MAX_TZ_SPAN) →
      (∀ j, (st.teams.getD j []).length ≤ c) →
      (Mstate (rl.foldl (fun st' _ =>
          (List.range st'.teams.length).foldl (draft_step exp_avg) st') st) =
        Multiset.ofList ppl ∧
       (rl.foldl (fun st' _ =>
          (List.range st'.teams.length).foldl (draft_step exp_avg) st') st).teams.length =
        st.teams.length ∧
       (∀ j, tz_span (((rl.foldl (fun st' _ =>
          (List.range st'.teams.length).foldl (draft_step exp_avg) st') st).teams.getD
            j []).map Person.tz) ≤ MAX_TZ_SPAN) ∧
       (∀ j, ((rl.foldl (fun st' _ =>
          (List.range st'.teams.length).foldl (draft_step exp_avg) st') st).teams.getD
            j []).length ≤ c + rl.length)) := by
  intro rl
  induction rl with
  | nil =>
    intro c st hM hsp hc
    exact ⟨hM, rfl, hsp, fun j => by simpa using hc j⟩
  | cons r rl' ih =>
    intro c st hM hsp hc
    simp only [List.foldl_cons]
    obtain ⟨d1, d2, d3, d4⟩ := phase1_round_spec hN exp_avg
      (List.range st.teams.length) st (fun x hx => List.mem_range.mp hx) hM hsp
    have hc1 : ∀ j, (((List.range st.teams.length).foldl (draft_step exp_avg)
        st).teams.getD j []).length ≤ c + 1 := by
      intro j
      have h1 := d4 j
      have h2 : (List.range st.teams.length).count j ≤ 1 :=
        List.nodup_iff_count_le_one.mp (List.nodup_range st.teams.length) j
      have h3 := hc j
      omega
    obtain ⟨e1, e2, e3, e4⟩ := ih (c + 1)
      ((List.range st.teams.length).foldl (draft_step exp_avg) st) d1 d3 hc1
    refine ⟨e1, by rw [e2, d2], e3, ?_⟩
    intro j
    have := e4 j
    simp only [List.length_cons]
    omega

theorem phase1_spec {ppl : List Person} (hN : NodupIds ppl) (exp_avg : ℚ) (st : TState)
    (hM : Mstate st = Multiset.ofList ppl)
    (hsp : ∀ j, tz_span ((st.teams.getD j []).map Person.tz) ≤ MAX_TZ_SPAN)
    (hone : ∀ j, (st.teams.getD j []).length ≤ 1) :
    Mstate (phase1 exp_avg st) = Multiset.ofList ppl ∧
    (phase1 exp_avg st).teams.length = st.teams.length ∧
    (∀ j, tz_span (((phase1 exp_avg st).teams.getD j []).map Person.tz) ≤ MAX_TZ_SPAN) ∧
    (∀ j, ((phase1 exp_avg st).teams.getD j []).length ≤ TARGET_TEAM_SIZE) := by
  obtain ⟨d1, d2, d3, d4⟩ := phase1_rounds_spec hN exp_avg
    (List.range (TARGET_TEAM_SIZE - 1)) 1 st hM hsp hone
  refine ⟨d1, d2, d3, fun j => ?_⟩
  have := d4 j
  simpa [TARGET_TEAM_SIZE] using this

theorem reconcile_team_nil : reconcile_team [] = [] := rfl

theorem reconcile_team_perm (t : List Person) : (reconcile_team t).Perm t := by
  unfold reconcile_team
  cases hso : t.insertionSort leadGe with
  | nil =>
    cases t with
    | nil => exact List.Perm.refl _
    | cons t0 ts => exact List.Perm.refl _
  | cons q rest =>
    cases t with
    | nil => exact List.Perm.refl _
    | cons t0 ts =>
      dsimp only
      split
      · exact List.Perm.refl _
      · rw [← hso]
        exact List.perm_insertionSort leadGe (t0 :: ts)

theorem reconcile_getD (st : TState) (j : Nat) :
    (reconcile st).teams.getD j [] = reconcile_team (st.teams.getD j []) := by
  rw [reconcile]
  dsimp only
  by_cases hj : j < st.teams.length
  · rw [List.getD_eq_getElem _ _ (by simpa using hj), List.getD_eq_getElem _ _ hj,
      List.getElem_map]
  · rw [List.getD_eq_default _ _ (by simpa using not_lt.mp hj),
      List.getD_eq_default _ _ (by simpa using not_lt.mp hj), reconcile_team_nil]

theorem reconcile_spec (st : TState) :
    Mstate (reconcile st) = Mstate st ∧
    (reconcile st).teams.length = st.teams.length ∧
    (∀ j, ((reconcile st).teams.getD j []).Perm (st.teams.getD j [])) := by
  refine ⟨?_, by rw [reconcile]; exact List.length_map _ _, ?_⟩
  · rw [Mstate, Mstate, reconcile]
    dsimp only
    congr 1
    rw [List.map_map]
    apply congrArg
    apply List.map_congr_left
    intro t _
    exact Multiset.coe_eq_coe.mpr (reconcile_team_perm t)
  · intro j
    rw [reconcile_getD]
    exact reconcile_team_perm _

theorem eq_of_mem_id {l : List Person} (hN : NodupIds l) {a b : Person}
    (ha : a ∈ l) (hb : b ∈ l) (hid : a.id = b.id) : a = b :=
  List.inj_on_of_nodup_map hN ha hb hid

theorem leadGe_refl (p : Person) : leadGe p p := by
  unfold leadGe
  omega

theorem reconcile_team_head_max (t : List Person) (hN : NodupIds t) :
    ∀ (h : reconcile_team t ≠ []) (p : Person), p ∈ reconcile_team t →
      leadGe ((reconcile_team t).head h) p := by
  have hsorted := List.sorted_insertionSort leadGe t
  have hperm := List.perm_insertionSort leadGe t
  unfold reconcile_team
  cases hso : t.insertionSort leadGe with
  | nil =>
    cases t with
    | nil => intro h; exact absurd rfl h
    | cons t0 ts =>
      rw [hso] at hperm
      exact absurd hperm.symm (by simp)
  | cons q rest =>
    cases t with
    | nil =>
      rw [hso] at hperm
      exact absurd hperm (by simp)
    | cons t0 ts =>
      rw [hso] at hsorted hperm
      have hq : ∀ x ∈ rest, leadGe q x := by
        rw [List.Sorted, List.pairwise_cons] at hsorted
        exact hsorted.1
      have hqmax : ∀ x ∈ t0 :: ts, leadGe q x := by
        intro x hx
        rcases List.mem_cons.mp (hperm.symm.subset hx) with rfl | hxr
        · exact leadGe_refl x
        · exact hq x hxr
      dsimp only
      split
      · rename_i hid
        have hqt : q = t0 := by
          refine eq_of_mem_id hN ?_ (List.mem_cons_self t0 ts) hid
          exact hperm.subset (List.mem_cons_self q rest)
        intro h p hp
        simp only [List.head_cons]
        rw [← hqt]
        exact hqmax p hp
      · intro h p hp
        simp only [List.head_cons]
        rcases List.mem_cons.mp hp with rfl | hpr
        · exact leadGe_refl p
        · exact hq p hpr

theorem tz_span_nil : tz_span [] = 0 := by
  have h1 : tz_span [] = 24 - (0 - 0 + 24) := by
    simp [tz_span, List.insertionSort, listMax]
  rw [h1]
  ring

theorem pyRemove_nodupIds {l : List Person} (p : Person) (hN : NodupIds l) :
    NodupIds (pyRemove p l) :=
  ((List.eraseP_sublist l).map Person.id).nodup hN

theorem pyRemove_id_not_mem : ∀ {l : List Person} {p : Person}, NodupIds l → p ∈ l →
    ∀ q ∈ pyRemove p l, q.id ≠ p.id := by
  intro l
  induction l with
  | nil => intro p _ hp; simp at hp
  | cons r tl ih =>
    intro p hN hp
    have hN' : NodupIds tl ∧ r.id ∉ tl.map Person.id := by
      simp only [NodupIds, List.map_cons, List.nodup_cons] at hN
      exact ⟨hN.2, hN.1⟩
    cases hr : (r.id == p.id) with
    | true =>
      have hid : r.id = p.id := by simpa using hr
      simp only [pyRemove, List.eraseP_cons, hr, cond_true]
      intro q hq he
      exact hN'.2 (by rw [hid, ← he]; exact List.mem_map_of_mem Person.id hq)
    | false =>
      have hrp : p ≠ r := by
        intro he
        subst he
        simp at hr
      have hptl : p ∈ tl := by
        rcases List.mem_cons.mp hp with rfl | hptl
        · exact absurd rfl hrp
        · exact hptl
      simp only [pyRemove, List.eraseP_cons, hr, cond_false]
      intro q hq
      rcases List.mem_cons.mp hq with rfl | hqtl
      · intro he
        rw [he] at hr
        simp at hr
      · exact ih hN'.1 hptl q hqtl

theorem pick_leaders_sub :
    ∀ (anchors pool ls : List Person), NodupIds pool →
      pick_leaders anchors pool = some ls →
      (NodupIds ls ∧ ∀ x ∈ ls, x ∈ pool) := by
  intro anchors
  induction anchors with
  | nil =>
    intro pool ls _ h
    rw [pick_leaders] at h
    cases h
    exact ⟨List.nodup_nil, by simp⟩
  | cons a rest ih =>
    intro pool ls hN h
    rw [pick_leaders] at h
    cases hm : pyMax qLt3 (leaderKey a.tz) pool with
    | none =>
      rw [hm] at h
      cases h
    | some best =>
      rw [hm] at h
      simp only [Option.map_eq_some'] at h
      obtain ⟨ls', hrec, hls⟩ := h
      subst hls
      have hbest := pyMax_mem hm
      obtain ⟨h1, h2⟩ := ih (pyRemove best pool) ls' (pyRemove_nodupIds best hN) hrec
      constructor
      · simp only [NodupIds, List.map_cons, List.nodup_cons]
        refine ⟨?_, h1⟩
        intro hin
        obtain ⟨x, hx, hxid⟩ := List.mem_map.mp hin
        exact pyRemove_id_not_mem hN hbest x (h2 x hx) hxid
      · intro x hx
        rcases List.mem_cons.mp hx with rfl | hx'
        · exact hbest
        · exact (List.eraseP_sublist pool).subset (h2 x hx')

theorem any_id_congr_of_erase {ls : List Person} {hd : Person} (hNls : NodupIds ls)
    (hhd : hd ∈ ls) {p : Person} (hne : p.id ≠ hd.id) :
    (ls.any fun l => l.id == p.id) = ((ls.erase hd).any fun l => l.id == p.id) := by
  apply Bool.eq_iff_iff.mpr
  rw [List.any_eq_true, List.any_eq_true]
  constructor
  · rintro ⟨x, hx, hfx⟩
    have hxid : x.id = p.id := by simpa using hfx
    have hmem := (List.perm_cons_erase hhd).subset hx
    rcases List.mem_cons.mp hmem with rfl | hxe
    · exact absurd hxid.symm hne
    · exact ⟨x, hxe, hfx⟩
  · rintro ⟨x, hx, hfx⟩
    exact ⟨x, List.erase_subset hd ls hx, hfx⟩

theorem leaders_filter_perm :
    ∀ (ppl ls : List Person), NodupIds ppl → NodupIds ls → (∀ x ∈ ls, x ∈ ppl) →
      Multiset.ofList ls +
          Multiset.ofList (ppl.filter (fun p => !(ls.any (fun l => l.id == p.id)))) =
        Multiset.ofList ppl := by
  intro ppl
  induction ppl with
  | nil =>
    intro ls _ _ hsub
    cases ls with
    | nil => rfl
    | cons x xs => exact absurd (hsub x (List.mem_cons_self x xs)) (by simp)
  | cons hd tl ih =>
    intro ls hN hNls hsub
    have hN' : NodupIds tl ∧ hd.id ∉ tl.map Person.id := by
      simp only [NodupIds, List.map_cons, List.nodup_cons] at hN
      exact ⟨hN.2, hN.1⟩
    by_cases hA : (ls.any fun l => l.id == hd.id) = true
    · obtain ⟨x, hxls, hxid⟩ := List.any_eq_true.mp hA
      have hxid' : x.id = hd.id := by simpa using hxid
      have hxhd : x = hd := by
        rcases List.mem_cons.mp (hsub x hxls) with rfl | hxtl
        · rfl
        · exact absurd (hxid' ▸ List.mem_map_of_mem Person.id hxtl) hN'.2
      have hhdls : hd ∈ ls := hxhd ▸ hxls
      have hlsnodup : ls.Nodup := List.Nodup.of_map Person.id hNls
      have hNerase : NodupIds (ls.erase hd) :=
        ((List.erase_sublist hd ls).map Person.id).nodup hNls
      have hsub2 : ∀ y ∈ ls.erase hd, y ∈ tl := by
        intro y hy
        have hyls := List.mem_of_mem_erase hy
        have hyne : y ≠ hd := ((hlsnodup.mem_erase_iff).mp hy).1
        rcases List.mem_cons.mp (hsub y hyls) with rfl | hytl
        · exact absurd rfl hyne
        · exact hytl
      have hcond : (!(ls.any fun l => l.id == hd.id)) = false := by
        simp [hA]
      have hfiltereq : tl.filter (fun p => !(ls.any (fun l => l.id == p.id))) =
          tl.filter (fun p => !((ls.erase hd).any (fun l => l.id == p.id))) := by
        apply List.filter_congr
        intro p hp
        have hpne : p.id ≠ hd.id := by
          intro he
          exact hN'.2 (he ▸ List.mem_map_of_mem Person.id hp)
        rw [any_id_congr_of_erase hNls hhdls hpne]
      have hih := ih (ls.erase hd) hN'.1 hNerase hsub2
      simp only [List.filter_cons, hcond, Bool.false_eq_true, if_false]
      rw [hfiltereq]
      have hlsperm : Multiset.ofList ls = Multiset.ofList (hd :: ls.erase hd) :=
        Multiset.coe_eq_coe.mpr (List.perm_cons_erase hhdls)
      rw [hlsperm, ← Multiset.cons_coe, ← Multiset.singleton_add, add_assoc, hih,
        Multiset.singleton_add, Multiset.cons_coe]
    · simp only [Bool.not_eq_true] at hA
      have hcond : (!(ls.any fun l => l.id == hd.id)) = true := by
        simp [hA]
      have hsub2 : ∀ y ∈ ls, y ∈ tl := by
        intro y hy
        rcases List.mem_cons.mp (hsub y hy) with rfl | hytl
        · have : (ls.any fun l => l.id == y.id) = true :=
            List.any_eq_true.mpr ⟨y, hy, by simp⟩
          rw [hA] at this
          cases this
        · exact hytl
      have hih := ih ls hN'.1 hNls hsub2
      simp only [List.filter_cons, hcond, if_true]
      rw [← Multiset.cons_coe, ← Multiset.singleton_add]
      calc Multiset.ofList ls + ({hd} +
            Multiset.ofList (tl.filter (fun p => !(ls.any (fun l => l.id == p.id)))))
          = {hd} + (Multiset.ofList ls +
            Multiset.ofList (tl.filter (fun p => !(ls.any (fun l => l.id == p.id))))) := by
            abel
        _ = {hd} + Multiset.ofList tl := by rw [hih]
        _ = Multiset.ofList (hd :: tl) := by
            rw [Multiset.singleton_add, Multiset.cons_coe]

theorem form_teams_ok {people : List Person} {st : TState} (hN : NodupIds people)
    (h : form_teams people = Except.ok st) :
    Mstate st = Multiset.ofList people ∧
    (∀ j, tz_span ((st.teams.getD j []).map Person.tz) ≤ MAX_TZ_SPAN) ∧
    (∀ j, (st.teams.getD j []).length ≤ TARGET_TEAM_SIZE + 1) ∧
    (∃ stPre, st = reconcile stPre ∧ Mstate stPre = Multiset.ofList people) := by
  simp only [form_teams] at h
  split at h
  · cases h
  · rename_i hguard
    cases hpl : pick_leaders
        (every_nth TARGET_TEAM_SIZE ((sortByTz people).drop (TARGET_TEAM_SIZE / 2)))
        (people.filter (fun p => 0 < p.lead_priority)) with
    | none =>
      rw [hpl] at h
      cases h
    | some leaders =>
      rw [hpl] at h
      simp only [Except.ok.injEq] at h
      set st0 : TState :=
        { teams := leaders.map (fun l => [l]),
          unassigned := (sortByTz people).filter
            (fun p => !(leaders.any (fun l => l.id == p.id))) } with hst0
      have hteams0 : st0.teams = leaders.map (fun l => [l]) := by rw [hst0]
      have hun0 : st0.unassigned = (sortByTz people).filter
          (fun p => !(leaders.any (fun l => l.id == p.id))) := by rw [hst0]
      have hNsorted : NodupIds (sortByTz people) := by
        have hperm : (sortByTz people).Perm people := List.perm_insertionSort _ _
        exact (List.Perm.nodup_iff (hperm.map Person.id)).mpr hN
      have hNpool : NodupIds (people.filter (fun p => 0 < p.lead_priority)) :=
        ((List.filter_sublist people).map Person.id).nodup hN
      obtain ⟨hNleaders, hsubpool⟩ := pick_leaders_sub _ _ leaders hNpool hpl
      have hsubsorted : ∀ x ∈ leaders, x ∈ sortByTz people := by
        intro x hx
        have hxp : x ∈ people := (List.filter_sublist people).subset (hsubpool x hx)
        exact (List.perm_insertionSort tzSortKeyLe people).symm.subset hxp
      have hM0 : Mstate st0 = Multiset.ofList people := by
        rw [Mstate, hteams0, hun0]
        rw [teams_sum_singletons]
        rw [leaders_filter_perm (sortByTz people) leaders hNsorted hNleaders hsubsorted]
        exact Multiset.coe_eq_coe.mpr (List.perm_insertionSort tzSortKeyLe people)
      have hsp0 : ∀ j, tz_span ((st0.teams.getD j []).map Person.tz) ≤ MAX_TZ_SPAN := by
        intro j
        rw [hteams0]
        by_cases hj : j < leaders.length
        · rw [List.getD_eq_getElem _ _ (by simpa using hj), List.getElem_map]
          simp only [List.map_cons, List.map_nil]
          rw [tz_span_single]
          rw [show MAX_TZ_SPAN = 4 from rfl]
          norm_num
        · rw [List.getD_eq_default _ _ (by simpa using not_lt.mp hj)]
          rw [show ((([] : List Person)).map Person.tz) = [] from rfl, tz_span_nil]
          rw [show MAX_TZ_SPAN = 4 from rfl]
          norm_num
      have hone0 : ∀ j, (st0.teams.getD j []).length ≤ 1 := by
        intro j
        rw [hteams0]
        by_cases hj : j < leaders.length
        · rw [List.getD_eq_getElem _ _ (by simpa using hj), List.getElem_map]
          simp
        · rw [List.getD_eq_default _ _ (by simpa using not_lt.mp hj)]
          simp
      obtain ⟨a1, a2, a3, a4⟩ := phase1_spec hN (mean_exp people) st0 hM0 hsp0 hone0
      have a4b : ∀ j, (((phase1 (mean_exp people) st0).teams.getD j []).length) ≤
          TARGET_TEAM_SIZE + 1 := by
        intro j
        have := a4 j
        omega
      obtain ⟨b1, b2, b3, b4⟩ := phase2_spec hN (mean_exp people) _ a1 a3 a4b
      obtain ⟨c1, c2, c3, c4⟩ := phase3_spec hN (mean_exp people) _ b1 b3 b4
      obtain ⟨r1, r2, r3⟩ := reconcile_spec (phase3 (mean_exp people)
        (phase2 (mean_exp people) (phase1 (mean_exp people) st0)))
      subst h
      refine ⟨by rw [r1, c1], ?_, ?_, ?_⟩
      · intro j
        have hperm := (r3 j).map Person.tz
        rw [tz_span_perm hperm]
        exact c3 j
      · intro j
        rw [(r3 j).length_eq]
        exact c4 j
      · exact ⟨_, rfl, c1⟩

/-- C1: on any valid roster (distinct ids) on which `form_teams` succeeds, the
multiset union of all team memberships and the unassigned set is exactly the
input roster (each participant exactly once, nobody else), and the ids across
all teams and the unassigned list are pairwise distinct, so the team sets are
pairwise disjoint and disjoint from the unassigned set. -/
theorem claim_C1 (people : List Person) (st : TState) (hN : NodupIds people)
    (h : form_teams people = Except.ok st) :
    Mstate st = Multiset.ofList people ∧
    ((st.teams.flatten ++ st.unassigned).map Person.id).Nodup := by
  obtain ⟨hM, -, -, -⟩ := form_teams_ok hN h
  refine ⟨hM, ?_⟩
  have h1 := mstate_ids_nodup hN hM
  rw [mstate_flatten, Multiset.map_coe] at h1
  exact Multiset.coe_nodup.mp h1

/-- Witness for C1: the 3-person roster `rosterA` forms the single full team
recorded in `stA`; conservation and disjointness hold there. -/
theorem claim_C1_witness :
    Mstate stA = Multiset.ofList rosterA ∧
    ((stA.teams.flatten ++ stA.unassigned).map Person.id).Nodup :=
  claim_C1 rosterA stA (by decide) (by with_unfolding_all rfl)

/-- C2: on any valid roster on which `form_teams` succeeds, every team of the
final output has timezone span at most `MAX_TZ_SPAN`. -/
theorem claim_C2 (people : List Person) (st : TState) (hN : NodupIds people)
    (h : form_teams people = Except.ok st) (j : Nat) :
    tz_span ((st.teams.getD j []).map Person.tz) ≤ MAX_TZ_SPAN :=
  (form_teams_ok hN h).2.1 j

/-- Witness for C2: the single team formed from `rosterA` has span within the
ceiling. -/
theorem claim_C2_witness :
    tz_span ((stA.teams.getD 0 []).map Person.tz) ≤ MAX_TZ_SPAN :=
  claim_C2 rosterA stA (by decide) (by with_unfolding_all rfl) 0

/-- C7: in the final output of `form_teams` on a roster with distinct ids, the
member at index 0 of every team has the maximal `(lead_priority, exp)`
lexicographic key among that team's members. -/
theorem claim_C7 (people : List Person) (st : TState) (hN : NodupIds people)
    (h : form_teams people = Except.ok st) (j : Nat) (hd : Person)
    (tl : List Person) (hteam : st.teams.getD j [] = hd :: tl)
    (p : Person) (hp : p ∈ st.teams.getD j []) : leadGe hd p := by
  obtain ⟨-, -, -, stPre, hrec, hMpre⟩ := form_teams_ok hN h
  have hg : st.teams.getD j [] = reconcile_team (stPre.teams.getD j []) := by
    rw [hrec]
    exact reconcile_getD stPre j
  have hNt : NodupIds (stPre.teams.getD j []) := by
    by_cases hj : j < stPre.teams.length
    · exact nodupIds_of_coe_le (team_getD_coe_le stPre hj) (mstate_ids_nodup hN hMpre)
    · rw [List.getD_eq_default _ _ (by simpa using not_lt.mp hj)]
      exact List.nodup_nil
  have hrt : reconcile_team (stPre.teams.getD j []) = hd :: tl := by
    rw [← hg, hteam]
  have hne : reconcile_team (stPre.teams.getD j []) ≠ [] := by
    rw [hrt]
    simp
  have hpm : p ∈ reconcile_team (stPre.teams.getD j []) := by
    rw [← hg]
    exact hp
  have h3 := reconcile_team_head_max (stPre.teams.getD j []) hNt hne p hpm
  have h4 : (reconcile_team (stPre.teams.getD j [])).head hne = hd := by
    simp only [hrt, List.head_cons]
  rw [h4] at h3
  exact h3

/-- Witness for C7: in the team formed from `rosterA`, the leader (id 0,
`lead_priority` 1) heads the list and dominates member id 1. -/
theorem claim_C7_witness : leadGe (mkPerson 0 0 3 1) (mkPerson 1 0 2 0) :=
  claim_C7 rosterA stA (by decide) (by with_unfolding_all rfl) 0
    (mkPerson 0 0 3 1) [mkPerson 1 0 2 0, mkPerson 2 0 2 0] rfl
    (mkPerson 1 0 2 0) (List.mem_cons_of_mem _ (List.mem_cons_self _ _))

/-- C10: on any valid roster on which `form_teams` succeeds, no team of the
final output exceeds `TARGET_TEAM_SIZE + 1` members. -/
theorem claim_C10 (people : List Person) (st : TState) (hN : NodupIds people)
    (h : form_teams people = Except.ok st) (j : Nat) :
    (st.teams.getD j []).length ≤ TARGET_TEAM_SIZE + 1 :=
  (form_teams_ok hN h).2.2.1 j

/-- Witness for C10: the single team formed from `rosterA` has 3 members,
within the bound. -/
theorem claim_C10_witness : (stA.teams.getD 0 []).length ≤ TARGET_TEAM_SIZE + 1 :=
  claim_C10 rosterA stA (by decide) (by with_unfolding_all rfl) 0
